import Mathlib

/-!
Verification model of the databaser collector (src/databaser/core/collectors.py)
and the chunk-transfer error handling of the transporter
(src/databaser/core/transporters.py).

The collector mutates an in-memory schema model: every table carries a set
need_transfer_pks of primary keys selected for copying and a readiness flag.
collect() runs three phases: seeding the key table, preparing common tables
(key-anchored expansion with bounded recursion, then a dependency-ordered
pass over the remaining non-generic tables), and generic-foreign-key tables.

The schema entities (core/db_entities.py), the SQL templates
(core/repositories.py) and the topological sorter (core/helpers.py) are not
part of the given sources; those pieces are modelled from the specification,
as marked on each definition.  The cooperative asyncio scheduler is modelled
by running the launched tasks sequentially in their launch order.
-/

namespace Databaser

/-- Column of a table: name, data type, optional referenced table
(constraint_table of a foreign-key column; for the primary-key column the
introspection reports the owning table itself), uniqueness flag.
Modelled from the spec: core/db_entities.py DBColumn is not in src/. -/
structure DBColumn where
  name : String
  dataType : String
  constraintTable : Option String
  isUnique : Bool
deriving DecidableEq

/-- Table of the destination schema together with its collection state.
need_transfer_pks and is_ready_for_transferring are the mutable fields; the
rest is static schema data.  keyColumn names the column whose values match
the key of the extraction (with_key_column is its presence).
Modelled from the spec: core/db_entities.py DBTable is not in src/. -/
structure DBTable where
  name : String
  primaryKey : DBColumn
  columns : List DBColumn
  keyColumn : Option String
  revertFkTables : List String
  isFullTransferred : Bool
  needTransferPks : Finset Nat
  isReady : Bool
deriving DecidableEq

/-- with_key_column flag of a table. -/
def DBTable.withKey (t : DBTable) : Bool :=
  t.keyColumn.isSome

/-- Forward foreign-key columns excluding self references
(db_entities.not_self_fk_columns, modelled from the spec). -/
def DBTable.notSelfFkColumns (t : DBTable) : List DBColumn :=
  t.columns.filter (fun c =>
    match c.constraintTable with
    | some u => u ≠ t.name
    | none => false)

/-- Foreign-key columns carrying a unique constraint
(db_entities.unique_foreign_keys_columns, modelled from the spec). -/
def DBTable.uniqueForeignKeysColumns (t : DBTable) : List DBColumn :=
  t.columns.filter (fun c => c.constraintTable.isSome && c.isUnique)

/-- Foreign-key columns of this table whose constraint table is the named
one (db_entities.get_columns_by_constraint_table_name, modelled from the
spec). -/
def DBTable.columnsReferencing (t : DBTable) (n : String) : List DBColumn :=
  t.columns.filter (fun c => c.constraintTable = some n)

/-- Destination schema: the list of tables. -/
structure Database where
  tables : List DBTable
deriving DecidableEq

/-- Look a table up by name. -/
def Database.table? (db : Database) (n : String) : Option DBTable :=
  db.tables.find? (fun t => t.name = n)

/-- Whether the named table has with_key_column, false when absent. -/
def Database.withKeyOf (db : Database) (n : String) : Bool :=
  match db.table? n with
  | some t => t.withKey
  | none => false

/-- Foreign-key columns whose referenced table has with_key_column
(db_entities.fks_with_key_column, modelled from the spec). -/
def DBTable.fksWithKeyColumn (t : DBTable) (db : Database) : List DBColumn :=
  t.columns.filter (fun c =>
    match c.constraintTable with
    | some u => db.withKeyOf u
    | none => false)

/-- Grow the need_transfer_pks set of the named table by a set of values.
Every mutation of need_transfer_pks in the collector goes through this
primitive; the set only ever grows. -/
def Database.addPks (db : Database) (n : String) (s : Finset Nat) : Database :=
  ⟨db.tables.map (fun t =>
    if t.name = n then { t with needTransferPks := t.needTransferPks ∪ s } else t)⟩

/-- Set is_ready_for_transferring of the named table. -/
def Database.markReady (db : Database) (n : String) : Database :=
  ⟨db.tables.map (fun t =>
    if t.name = n then { t with isReady := true } else t)⟩

/-- need_transfer_pks of the named table, empty when the table is absent. -/
def Database.needOf (db : Database) (n : String) : Finset Nat :=
  match db.table? n with
  | some t => t.needTransferPks
  | none => ∅

/-- is_ready_for_transferring of the named table, false when absent. -/
def Database.readyOf (db : Database) (n : String) : Bool :=
  match db.table? n with
  | some t => t.isReady
  | none => false

/-- Row of a source table: its primary-key value and the remaining cells
(column name to nullable value). -/
structure SrcRow where
  pk : Nat
  cells : List (String × Option Nat)
deriving DecidableEq

/-- Read a column of a source row: the primary-key column yields the row key,
any other column is looked up among the cells (absent cells read as NULL). -/
def SrcRow.read (row : SrcRow) (pkName : String) (c : String) : Option Nat :=
  if c = pkName then some row.pk
  else
    match row.cells.find? (fun e => e.1 = c) with
    | some e => e.2
    | none => none

/-- Source table: name and rows. -/
structure SrcTable where
  name : String
  rows : List SrcRow
deriving DecidableEq

/-- Source database. -/
structure SrcDB where
  tables : List SrcTable
deriving DecidableEq

/-- Rows of the named source table, empty when the table is absent. -/
def SrcDB.rowsOf (src : SrcDB) (n : String) : List SrcRow :=
  match src.tables.find? (fun t => t.name = n) with
  | some t => t.rows
  | none => []

/-- Primary-key values actually present in the named source table. -/
def SrcDB.pksOf (src : SrcDB) (n : String) : Finset Nat :=
  ((src.rowsOf n).map (fun r => r.pk)).toFinset

/-- Configuration (settings.py is not in src/; fields from the spec). -/
structure Settings where
  keyTableName : String
  excludedTables : List String
  genericTables : List String
deriving DecidableEq

/-- Immutable context of a collection run: settings, the source database,
the caller-supplied key value seed, the chunk size and the two raw
content-type catalogs (the destination catalog rows (table_name, app_label,
model) and the source catalog rows (content_type_id, app_label, model)). -/
structure Ctx where
  settings : Settings
  src : SrcDB
  seed : Finset Nat
  chunkSize : Nat
  ctDst : List (String × String × String)
  ctSrc : List (Nat × String × String)
deriving DecidableEq

/-- Row filter of the modelled SELECT (SQLRepository.get_table_column_values_sql
is not in src/).  Modelled from the spec: a row qualifies when it passes the
key-column match against the seed when the table has a key column, the
optional primary-key IN restriction (an empty list means no restriction, as
at the call sites), and the conjunction of column IN set conditions. -/
def rowPasses (seed : Finset Nat) (t : DBTable) (pkValues : List Nat)
    (whereConds : List (String × Finset Nat)) (row : SrcRow) : Bool :=
  (match t.keyColumn with
   | some k =>
       match row.read t.primaryKey.name k with
       | some v => v ∈ seed
       | none => false
   | none => true) &&
  (pkValues.isEmpty || row.pk ∈ pkValues) &&
  whereConds.all (fun e =>
    match row.read t.primaryKey.name e.1 with
    | some v => v ∈ e.2
    | none => false)

/-- Model of Collector._get_table_column_values (collectors.py lines 159-199)
combined with the spec-modelled SELECT semantics: the distinct non-NULL
values of the requested column over the qualifying rows of the source table.
A column referencing an excluded table, or carrying no constraint table at
all (the AttributeError branch), yields the empty set.  The reverse variant
of the query projects the same column over the same restriction (spec 4.D
step 4), so it needs no separate flag here. -/
def getTableColumnValues (C : Ctx) (t : DBTable) (col : DBColumn)
    (pkValues : List Nat) (whereConds : List (String × Finset Nat)) : Finset Nat :=
  match col.constraintTable with
  | none => ∅
  | some u =>
      if u ∈ C.settings.excludedTables then ∅
      else
        (((C.src.rowsOf t.name).filter (rowPasses C.seed t pkValues whereConds)).filterMap
          (fun row => row.read t.primaryKey.name col.name)).toFinset

/-- Chunking loop on an explicit structural bound (the bound never runs out
because every step strictly shortens the list). -/
def makeChunksAux (k : Nat) : Nat → List Nat → List (List Nat)
  | 0, _ => []
  | _, [] => []
  | fuel + 1, x :: xs =>
      (x :: xs.take (k - 1)) :: makeChunksAux k fuel (xs.drop (k - 1))

/-- Model of helpers.make_chunks (not in src/; spec: partition an ID list
into chunks bounding the SQL payload). -/
def makeChunks (k : Nat) (l : List Nat) : List (List Nat) :=
  makeChunksAux k l.length l

/-- Deterministic listing of a finite set of keys, used where the Python code
iterates over a set: the increasing enumeration, computed by an insertion
sort so that concrete runs reduce inside the kernel. -/
def pkList (s : Finset Nat) : List Nat :=
  Quot.liftOn s.val (fun l => l.insertionSort (· ≤ ·)) (fun l1 l2 h => by
    refine List.eq_of_perm_of_sorted ?_ (List.sorted_insertionSort _ l1)
      (List.sorted_insertionSort _ l2)
    exact (List.perm_insertionSort _ l1).trans
      (h.trans (List.perm_insertionSort _ l2).symm))

/-- Output of helpers.topological_sort: an acyclic linearization and the
remaining nodes of the cyclic part. -/
structure SortResult where
  sorted : List String
  cyclic : List String
deriving DecidableEq

/-- Parents of a node in the edge list (child, parent). -/
def edgeParents (edges : List (String × String)) (n : String) : List String :=
  edges.filterMap (fun e => if e.1 = n then some e.2 else none)

/-- Peeling loop of the sorter: repeatedly move every remaining node all of
whose parents are already emitted into the sorted prefix; the nodes left
when no further progress is possible form the cyclic remainder. -/
def topoGo (edges : List (String × String)) :
    Nat → List String → List String → SortResult
  | 0, remaining, acc => ⟨acc, remaining⟩
  | fuel + 1, remaining, acc =>
      let ready := remaining.filter (fun n => (edgeParents edges n).all (· ∈ acc))
      if ready.isEmpty then ⟨acc, remaining⟩
      else topoGo edges fuel (remaining.filter (fun n => n ∉ ready)) (acc ++ ready)

/-- Model of helpers.topological_sort (not in src/).  Modelled from the
spec: the input is the list of edges (child, parent) over table names; the
output partitions the mentioned nodes into sorted, an acyclic linearization
with parents before children, and cyclic, the remainder stuck behind a
cycle. -/
def topologicalSort (edges : List (String × String)) : SortResult :=
  let nodes := (edges.flatMap (fun e => [e.1, e.2])).dedup
  topoGo edges nodes.length nodes []

/-- Model of Collector._collect_key_table_values (collectors.py lines
121-130): the key table receives the caller-supplied key values verbatim and
is marked ready; no database probe is made. -/
def collectKeyTableValues (C : Ctx) (db : Database) : Database :=
  (db.addPks C.settings.keyTableName C.seed).markReady C.settings.keyTableName

/-- Body of Collector._recursively_preparing_foreign_table together with
_recursively_preparing_foreign_table_chunk (collectors.py lines 344-453),
parameterized by the recursive re-entry into table preparation: a foreign
table already on the stack or carrying a key column is skipped; the
candidate identifiers are fetched without a primary-key restriction when the
current table has a key column, and restricted to the current chunk (or
unrestricted when the current table is fully transferred) otherwise; only
the difference with the already selected identifiers is added and recursed
into in chunks, the depth decremented because the foreign table has no key
column on every path that reaches the recursion. -/
def foreignStep (C : Ctx)
    (recurse : DBTable → List Nat → List String → Nat → Database → Database)
    (t : DBTable) (col : DBColumn) (needPks : List Nat) (stack : List String)
    (deep : Nat) (db : Database) : Database :=
  match col.constraintTable with
  | none => db
  | some fname =>
      match db.table? fname with
      | none => db
      | some ft =>
          if fname ∈ stack || ft.withKey then db
          else
            let foreignPks :=
              if t.withKey then getTableColumnValues C t col [] []
              else
                getTableColumnValues C t col
                  (if t.isFullTransferred then [] else needPks) []
            let diff := foreignPks \ ft.needTransferPks
            if diff = ∅ then db
            else
              let db := db.addPks fname diff
              let dwkt := if !ft.withKey then deep - 1 else deep
              (makeChunks C.chunkSize (pkList diff)).foldl
                (fun acc ch => recurse ft ch stack dwkt acc)
                db

/-- Model of Collector._recursively_preparing_table (collectors.py lines
455-485): stop when the remaining depth is spent, push the table on the
stack and visit every non-self foreign-key column.  The explicit fuel only
reflects the depth bound of the code: every nested re-entry strictly
decreases the depth counter (the foreign table of a re-entry never has a key
column), so a sufficient fuel is never exhausted. -/
def recursivelyPreparingTable (C : Ctx) : Nat → DBTable → List Nat →
    List String → Nat → Database → Database
  | 0, _, _, _, _, db => db
  | f + 1, t, needPks, stack, deep, db =>
      if deep = 0 then db
      else
        let stack := stack ++ [t.name]
        t.notSelfFkColumns.foldl
          (fun acc col =>
            foreignStep C (recursivelyPreparingTable C f) t col needPks stack
              deep acc)
          db

/-- Model of Collector._recursively_preparing_foreign_table at a given fuel
for the nested preparations. -/
def recursivelyPreparingForeignTable (C : Ctx) (fuel : Nat) (t : DBTable)
    (col : DBColumn) (needPks : List Nat) (stack : List String) (deep : Nat)
    (db : Database) : Database :=
  foreignStep C (recursivelyPreparingTable C fuel) t col needPks stack deep db


/-- Net effect of one foreign-key column during the depth-one recursive
preparation of a key-anchored table: the candidate set is fetched without a
primary-key restriction and only its difference with the already selected
identifiers is added; the nested chunk recursions run at depth zero and do
nothing.  recTable_depth1_withKey below proves that the recursion reduces to
a fold of this step. -/
def phase2aColStep (C : Ctx) (t : DBTable) (col : DBColumn)
    (stack : List String) (db : Database) : Database :=
  match col.constraintTable with
  | none => db
  | some fname =>
      match db.table? fname with
      | none => db
      | some ft =>
          if fname ∈ stack || ft.withKey then db
          else
            let diff := getTableColumnValues C t col [] [] \ ft.needTransferPks
            if diff = ∅ then db else db.addPks fname diff

/-- Model of Collector._prepare_tables_with_key_column (collectors.py lines
503-544): fetch the primary keys of the key-anchored table matching the
seed, add them, recursively prepare the table chunk by chunk with depth one
(lines 487-501), and mark the table ready. -/
def prepareTablesWithKeyColumn (C : Ctx) (t : DBTable) (db : Database) : Database :=
  let needTransferPks := getTableColumnValues C t t.primaryKey [] []
  let db :=
    if needTransferPks = ∅ then db
    else
      let db := db.addPks t.name needTransferPks
      (makeChunks C.chunkSize (pkList needTransferPks)).foldl
        (fun acc ch => recursivelyPreparingTable C 2 t ch [] 1 acc)
        db
  db.markReady t.name

/-- The projection a revert pass fetches (collectors.py lines 202-213): the
non-NULL values of the foreign-key column of the referencing table over its
selected rows, over all rows when it is fully transferred. -/
def revertFetch (C : Ctx) (revTable : DBTable) (fkCol : DBColumn) : Finset Nat :=
  getTableColumnValues C revTable fkCol
    (if !revTable.isFullTransferred then pkList revTable.needTransferPks else [])
    []

/-- Model of Collector._collect_revert_table_ids (collectors.py lines
201-218): run the revert projection and add the result to the table being
prepared. -/
def collectRevertTableIds (C : Ctx) (revTable : DBTable) (fkCol : DBColumn)
    (tname : String) (db : Database) : Database :=
  let revIds := revertFetch C revTable fkCol
  if revIds = ∅ then db else db.addPks tname revIds

/-- Model of Collector._collect_importing_revert_tables_data (collectors.py
lines 220-242): skip a referencing table that has foreign keys into
key-anchored tables when the current table is not key-anchored; otherwise,
when the referencing table has selected rows, run the revert projection for
every of its columns referencing the current table.  The bookkeeping write
to revert_fk_tables has no effect on the collection state and is omitted. -/
def collectImportingRevertTablesData (C : Ctx) (revName : String)
    (tname : String) (tWithKey : Bool) (db : Database) : Database :=
  match db.table? revName with
  | none => db
  | some revTable =>
      if !(revTable.fksWithKeyColumn db).isEmpty && !tWithKey then db
      else if revTable.needTransferPks = ∅ then db
      else
        (revTable.columnsReferencing tname).foldl
          (fun acc fkCol => collectRevertTableIds C revTable fkCol tname acc)
          db

/-- Foreign-key columns chosen for the direct fetch of a table in phase 2b
(collectors.py lines 254-268): the columns referencing key-anchored tables
when present, else the non-self foreign keys, overridden by the unique
foreign keys when those exist. -/
def phase2bFkColumns (db : Database) (t : DBTable) : List DBColumn :=
  let fkCols :=
    if !(t.fksWithKeyColumn db).isEmpty then t.fksWithKeyColumn db
    else t.notSelfFkColumns
  if !t.uniqueForeignKeysColumns.isEmpty then t.uniqueForeignKeysColumns
  else fkCols

/-- Where conditions and full-transfer flag accumulated over the chosen
foreign-key columns (collectors.py lines 270-282): a foreign table with
selected rows contributes a condition unless it is fully transferred, in
which case only the flag is raised. -/
def phase2bWhereConds (db : Database) (t : DBTable) :
    List (String × Finset Nat) × Bool :=
  (phase2bFkColumns db t).foldl
    (fun acc col =>
      match col.constraintTable with
      | none => acc
      | some u =>
          match db.table? u with
          | none => acc
          | some ft =>
              if ft.needTransferPks = ∅ then acc
              else if !ft.isFullTransferred then
                (acc.1 ++ [(col.name, ft.needTransferPks)], acc.2)
              else (acc.1, true))
    ([], false)

/-- The revert pass of the phase 2b step (collectors.py lines 320-326): one
collectImportingRevertTablesData per entry of the revert index, run in
launch order. -/
def phase2bRevertFold (C : Ctx) (tname : String) (tWithKey : Bool)
    (revNames : List String) (db : Database) : Database :=
  revNames.foldl
    (fun acc revName =>
      collectImportingRevertTablesData C revName tname tWithKey acc)
    db

/-- Model of Collector._collect_importing_fk_tables_records_ids
(collectors.py lines 244-342).  The two early returns (lines 284-289 and
306-307) leave the table untouched and unready; otherwise the direct fetch
restricted by the where conditions is added, the revert pass runs, all
primary keys are pulled when the selection is still empty (lines 328-336),
and the table is marked ready. -/
def collectImportingFkTablesRecordsIds (C : Ctx) (tname : String)
    (db : Database) : Database :=
  match db.table? tname with
  | none => db
  | some t =>
      let fkCols := phase2bFkColumns db t
      let wc := phase2bWhereConds db t
      if !fkCols.isEmpty && wc.1.isEmpty && !wc.2 then db
      else
        let fkIds := getTableColumnValues C t t.primaryKey [] wc.1
        if !fkCols.isEmpty && !wc.1.isEmpty && fkIds = ∅ then db
        else
          let db := phase2bRevertFold C tname t.withKey t.revertFkTables
            (db.addPks tname fkIds)
          if db.needOf tname = ∅ then
            (db.addPks tname
              (getTableColumnValues C t t.primaryKey [] [])).markReady tname
          else db.markReady tname

/-- Whether the phase 2b step issues the final pull of all primary keys
(collectors.py lines 328-336): the control flow of
collectImportingFkTablesRecordsIds reaches line 328 with a still empty
selection. -/
def pullAllFired (C : Ctx) (tname : String) (db : Database) : Bool :=
  match db.table? tname with
  | none => false
  | some t =>
      let fkCols := phase2bFkColumns db t
      let wc := phase2bWhereConds db t
      if !fkCols.isEmpty && wc.1.isEmpty && !wc.2 then false
      else
        let fkIds := getTableColumnValues C t t.primaryKey [] wc.1
        if !fkCols.isEmpty && !wc.1.isEmpty && fkIds = ∅ then false
        else
          (phase2bRevertFold C tname t.withKey t.revertFkTables
            (db.addPks tname fkIds)).needOf tname = ∅

/-- Tables of the schema outside TABLES_WITH_GENERIC_FOREIGN_KEY
(db_entities.tables_without_generics, modelled from the spec). -/
def Database.tablesWithoutGenerics (db : Database) (s : Settings) : List DBTable :=
  db.tables.filter (fun t => t.name ∉ s.genericTables)

/-- Tables with with_key_column (db_entities.tables_with_key_column,
modelled from the spec). -/
def Database.tablesWithKeyColumn (db : Database) : List DBTable :=
  db.tables.filter (fun t => t.withKey)

/-- Edge list over the non-generic tables (collectors.py lines 581-586): one
edge (owner, referenced) per non-self foreign-key column. -/
def phase2bEdges (db : Database) (s : Settings) : List (String × String) :=
  (db.tablesWithoutGenerics s).flatMap
    (fun t => t.notSelfFkColumns.filterMap
      (fun c => c.constraintTable.map (fun u => (t.name, u))))

/-- Processing order of phase 2b (collectors.py lines 588-603): both sorter
outputs reversed, the cyclic part first, preceded by every non-generic table
not mentioned in the edge list (the Python set difference is iterated here
in schema order). -/
def phase2bOrder (db : Database) (s : Settings) : List String :=
  let sr := topologicalSort (phase2bEdges db s)
  let sortedNotTransferred := sr.cyclic.reverse ++ sr.sorted.reverse
  let withoutRelatives :=
    ((db.tablesWithoutGenerics s).map (fun t => t.name)).filter
      (fun n => n ∉ sortedNotTransferred)
  withoutRelatives ++ sortedNotTransferred

/-- Model of Collector._prepare_common_tables (collectors.py lines 546-613):
prepare every key-anchored table, then walk the phase 2b order strictly
sequentially, processing each table that is not yet ready. -/
def prepareCommonTables (C : Ctx) (db : Database) : Database :=
  let db :=
    (db.tablesWithKeyColumn).foldl
      (fun acc t => prepareTablesWithKeyColumn C t acc) db
  (phase2bOrder db C.settings).foldl
    (fun acc n =>
      if acc.readyOf n then acc
      else collectImportingFkTablesRecordsIds C n acc)
    db

/-- Insertion into a Python dict modelled as an association list: an existing
key keeps its position and receives the new value, a new key is appended. -/
def dictInsert {α β : Type} [DecidableEq α] (l : List (α × β)) (k : α) (v : β) :
    List (α × β) :=
  if l.any (fun e => e.1 = k) then
    l.map (fun e => if e.1 = k then (k, v) else e)
  else l ++ [(k, v)]

/-- Association-list lookup. -/
def dictGet? {α β : Type} [DecidableEq α] (l : List (α × β)) (k : α) : Option β :=
  (l.find? (fun e => e.1 = k)).map (fun e => e.2)

/-- Destination content-type dict: (app_label, model) to table_name
(collectors.py lines 625-628). -/
def ctDstDict (ctDst : List (String × String × String)) :
    List ((String × String) × String) :=
  ctDst.foldl (fun d e => dictInsert d (e.2.1, e.2.2) e.1) []

/-- Source content-type dict: (app_label, model) to content_type_id
(collectors.py lines 634-637). -/
def ctSrcDict (ctSrc : List (Nat × String × String)) :
    List ((String × String) × Nat) :=
  ctSrc.foldl (fun d e => dictInsert d (e.2.1, e.2.2) e.1) []

/-- Model of Collector._prepare_content_type_tables (collectors.py lines
615-647).  The destination catalog is folded into a dict keyed by
(app_label, model) with table_name values, the source catalog into a dict
with content_type_id values; then every destination key is looked up in the
source dict.  A key absent from the source raises KeyError: the result pairs
the entries written before the failure with the offending key, mirroring the
partially filled content_type_table the exception leaves behind. -/
def prepareContentTypeTables (ctDst : List (String × String × String))
    (ctSrc : List (Nat × String × String)) :
    List (String × Nat) × Option (String × String) :=
  let contentTypeTableDict := ctDstDict ctDst
  let contentTypeDict := ctSrcDict ctSrc
  contentTypeTableDict.foldl
    (fun acc e =>
      match acc.2 with
      | some _ => acc
      | none =>
          match dictGet? contentTypeDict e.1 with
          | some ctId => (dictInsert acc.1 e.2 ctId, none)
          | none => (acc.1, some e.1))
    ([], none)

/-- The content-type catalog a collection run works with: the entries built
before a possible KeyError (collect() proceeds with them because the
asyncio.wait call at collectors.py line 717 swallows the task exception). -/
def contentTypeTable (C : Ctx) : List (String × Nat) :=
  (prepareContentTypeTables C.ctDst C.ctSrc).1

/-- Intersection semantics the specification describes for the catalog: a
destination pair absent from the source catalog is omitted.  This definition
follows the words of the spec and exists to be compared with
prepareContentTypeTables. -/
def contentTypeCatalogSpec (ctDst : List (String × String × String))
    (ctSrc : List (Nat × String × String)) : List (String × Nat) :=
  let contentTypeTableDict := ctDstDict ctDst
  let contentTypeDict := ctSrcDict ctSrc
  contentTypeTableDict.foldl
    (fun acc e =>
      match dictGet? contentTypeDict e.1 with
      | some ctId => dictInsert acc e.2 ctId
      | none => acc)
    []

/-- Model of Collector._prepare_content_type_generic_data (collectors.py
lines 649-692): an empty related name, a related table absent from the
schema, or a primary-key data type differing from the object_id column data
type each end the coroutine before any mutation; otherwise the primary keys
of the generic table whose object_id lies in the related selection and whose
content_type_id matches the catalog entry are fetched and added.  A missing
object_id column would raise inside this one task and is likewise observable
only as the state staying unchanged. -/
def prepareContentTypeGenericData (C : Ctx) (catalog : List (String × Nat))
    (target : DBTable) (relTableName : String) (db : Database) : Database :=
  if relTableName = "" then db
  else
    match db.table? relTableName with
    | none => db
    | some relTable =>
        match target.columns.find? (fun c => c.name = "object_id") with
        | none => db
        | some objectIdColumn =>
            if relTable.primaryKey.dataType ≠ objectIdColumn.dataType then db
            else
              let ctIds : Finset Nat :=
                match dictGet? catalog relTable.name with
                | some i => {i}
                | none => ∅
              let whereConds :=
                [("object_id", relTable.needTransferPks),
                 ("content_type_id", ctIds)]
              let needTransferPks :=
                getTableColumnValues C target target.primaryKey [] whereConds
              db.addPks target.name needTransferPks

/-- Model of Collector._prepare_generic_table_data (collectors.py lines
694-708): one pass per related table of the catalog. -/
def prepareGenericTableData (C : Ctx) (catalog : List (String × Nat))
    (gname : String) (db : Database) : Database :=
  match db.table? gname with
  | none => db
  | some target =>
      (catalog.map (fun e => e.1)).foldl
        (fun acc relName => prepareContentTypeGenericData C catalog target relName acc)
        db

/-- Model of Collector._collect_generic_tables_records_ids (collectors.py
lines 710-733): build the content-type catalog, then prepare every table of
TABLES_WITH_GENERIC_FOREIGN_KEY not listed in EXCLUDED_TABLES. -/
def collectGenericTablesRecordsIds (C : Ctx) (db : Database) : Database :=
  let catalog := contentTypeTable C
  (C.settings.genericTables.filter
      (fun n => n ∉ C.settings.excludedTables && n ≠ "")).foldl
    (fun acc gname => prepareGenericTableData C catalog gname acc)
    db

/-- Model of Collector.collect (collectors.py lines 735-753): the three
phases in order. -/
def collect (C : Ctx) (db : Database) : Database :=
  let db := collectKeyTableValues C db
  let db := prepareCommonTables C db
  collectGenericTablesRecordsIds C db

/-- Errors of the asyncpg driver relevant to the claims. -/
inductive PgError where
  | undefinedFunction
  | undefinedColumn
  | postgresSyntax
  | notNullViolation
deriving DecidableEq

/-- Model of Collector._get_constraint_table_ids_part (collectors.py lines
132-157) over the outcome of the driver fetch: a PostgresSyntaxError is
caught, logged and replaced by an empty row list, so the accumulator is
returned unchanged; any other driver error propagates; a successful fetch
extends the accumulator with the non-NULL first fields. -/
def getConstraintTableIdsPart
    (fetched : Except PgError (List (Option Nat)))
    (constraintTableIds : List Nat) : Except PgError (List Nat) :=
  match fetched with
  | .error .postgresSyntax => .ok constraintTableIds
  | .error e => .error e
  | .ok rows => .ok (constraintTableIds ++ rows.filterMap id)

/-- Transfer bookkeeping state of a table (transporters.py). -/
structure TransferTable where
  name : String
  transferredIds : Finset Nat
deriving DecidableEq

/-- Model of Transporter._transfer_chunk_table_data (transporters.py lines
86-122) over the outcome of the destination fetch: UndefinedColumnError,
NotNullViolationError and PostgresSyntaxError are caught, logged with the
offending SQL and re-raised; any other driver error propagates as well; on
success the returned identifiers are recorded. -/
def transferChunkTableData (fetched : Except PgError (List Nat))
    (table : TransferTable) : Except PgError TransferTable :=
  match fetched with
  | .error e => .error e
  | .ok transferredIds =>
      .ok { table with
              transferredIds := table.transferredIds ∪ transferredIds.toFinset }

/-! Concrete fixtures.  exA is a five-table schema: the key table O; a
key-anchored table K; a table R referencing both K and a plain table W; W
referencing a leaf table X.  The source rows are chosen so that the row of R
selected through K carries a non-NULL reference into W. -/

/-- Integer column helper for the fixtures. -/
def intCol (n : String) (ct : Option String) : DBColumn :=
  ⟨n, "integer", ct, false⟩

/-- Fresh table helper for the fixtures: empty selection, not ready, not
fully transferred. -/
def mkTable (n : String) (cols : List DBColumn) (key : Option String)
    (rev : List String) : DBTable :=
  ⟨n, ⟨"i", "integer", some n, true⟩, cols, key, rev, false, ∅, false⟩

/-- Schema of the main fixture. -/
def exADb : Database :=
  ⟨[mkTable "O" [] (some "i") [],
    mkTable "K" [intCol "k" none] (some "k") ["R"],
    mkTable "R" [intCol "k_id" (some "K"), intCol "w_id" (some "W")] none [],
    mkTable "W" [intCol "x_id" (some "X")] none ["R"],
    mkTable "X" [] none ["W"]]⟩

/-- Source contents of the main fixture. -/
def exASrc : SrcDB :=
  ⟨[⟨"O", [⟨1, []⟩]⟩,
    ⟨"K", [⟨10, [("k", some 1)]⟩]⟩,
    ⟨"R", [⟨100, [("k_id", some 10), ("w_id", some 500)]⟩]⟩,
    ⟨"W", [⟨500, [("x_id", none)]⟩]⟩,
    ⟨"X", [⟨600, []⟩]⟩]⟩

/-- Collection context of the main fixture. -/
def exACtx : Ctx :=
  ⟨⟨"O", [], []⟩, exASrc, {1}, 70000, [], []⟩

/-- Cyclic fixture: tables A and B referencing each other, with A anchored
to the key. -/
def exCycDb : Database :=
  ⟨[mkTable "O" [] (some "i") [],
    mkTable "A" [intCol "k" none, intCol "b_id" (some "B")] (some "k") ["B"],
    mkTable "B" [intCol "a_id" (some "A")] none ["A"]]⟩

/-- Source contents of the cyclic fixture. -/
def exCycSrc : SrcDB :=
  ⟨[⟨"O", [⟨1, []⟩]⟩,
    ⟨"A", [⟨10, [("k", some 1), ("b_id", some 20)]⟩]⟩,
    ⟨"B", [⟨20, [("a_id", some 10)]⟩]⟩]⟩

/-- Collection context of the cyclic fixture. -/
def exCycCtx : Ctx :=
  ⟨⟨"O", [], []⟩, exCycSrc, {1}, 70000, [], []⟩

/-- Single-table fixture for the pull-all fallback: a table without
foreign-key columns whose source table is empty. -/
def exWDb : Database :=
  ⟨[mkTable "V" [] none []]⟩

/-- Context of the pull-all fixture. -/
def exWCtx : Ctx :=
  ⟨⟨"O", [], []⟩, ⟨[]⟩, ∅, 70000, [], []⟩

/-- Seed fixture for the key table: the source key table holds rows 1 and 2
while the caller supplies 5. -/
def exSeedDb : Database :=
  ⟨[mkTable "O" [] (some "i") []]⟩

/-- Context of the seed fixture. -/
def exSeedCtx : Ctx :=
  ⟨⟨"O", [], []⟩, ⟨[⟨"O", [⟨1, []⟩, ⟨2, []⟩]⟩]⟩, {5}, 70000, [], []⟩

/-- Two-table fixture for the local reverse-expansion guarantee: table P is
referenced by table Q whose selection already holds row 7, and the source
row 7 of Q points at row 3 of P. -/
def exBDb : Database :=
  ⟨[mkTable "P" [] none ["Q"],
    { mkTable "Q" [intCol "q_p" (some "P")] none [] with needTransferPks := {7} }]⟩

/-- Context of the reverse-expansion fixture. -/
def exBCtx : Ctx :=
  ⟨⟨"O", [], []⟩,
   ⟨[⟨"P", [⟨3, []⟩]⟩, ⟨"Q", [⟨7, [("q_p", some 3)]⟩]⟩]⟩,
   ∅, 70000, [], []⟩

/-- Generic-guard fixture: a generic table G with an integer object_id
column and a related table Y whose primary key is a bigint. -/
def exGDb : Database :=
  ⟨[mkTable "G" [intCol "object_id" none, intCol "content_type_id" none] none [],
    ⟨"Y", ⟨"i", "bigint", some "Y", true⟩, [], none, [], false, ∅, false⟩]⟩

/-- Context of the generic-guard fixture. -/
def exGCtx : Ctx :=
  ⟨⟨"O", [], ["G"]⟩, ⟨[]⟩, ∅, 70000, [], []⟩

/-- Static part of a table: the collection state (need_transfer_pks and
is_ready_for_transferring) erased. -/
def DBTable.staticPart (t : DBTable) : DBTable :=
  { t with needTransferPks := ∅, isReady := false }

/-- Two databases agree on everything except the collection state. -/
def Database.StaticEqv (db1 db2 : Database) : Prop :=
  db1.tables.map DBTable.staticPart = db2.tables.map DBTable.staticPart

/-- A table whose static part occurs in the given schema. -/
def SchemaTableOf (db : Database) (t : DBTable) : Prop :=
  t.staticPart ∈ db.tables.map DBTable.staticPart

/-- Referential integrity of the source with respect to a schema: every
non-NULL value stored in the source under a column carrying a constraint
table is a primary key actually present in that referenced source table. -/
def sourceIntegrity (C : Ctx) (db : Database) : Bool :=
  db.tables.all fun t =>
    t.columns.all fun c =>
      match c.constraintTable with
      | some u =>
          (C.src.rowsOf t.name).all fun row =>
            match row.read t.primaryKey.name c.name with
            | some v => v ∈ C.src.pksOf u
            | none => true
      | none => true

/-- Every table other than the key table selects only primary keys actually
present in its source table. -/
@[reducible] def needSubset (C : Ctx) (db : Database) : Prop :=
  ∀ t ∈ db.tables, t.name = C.settings.keyTableName ∨
    t.needTransferPks ⊆ C.src.pksOf t.name

/-- Every table of the given name is marked ready. -/
def ReadyAll (db : Database) (n : String) : Prop :=
  ∀ t ∈ db.tables, t.name = n → t.isReady = true

/-- One state evolves into another during collection: the static schema is
unchanged, every selection only grows, readiness is never revoked. -/
def Evolves (db1 db2 : Database) : Prop :=
  db1.StaticEqv db2 ∧ (∀ n, db1.needOf n ⊆ db2.needOf n) ∧
    (∀ m, ReadyAll db1 m → ReadyAll db2 m)

/-- Collection invariant relative to the initial schema db0: the static
schema is unchanged and every table other than the key table selects only
primary keys present in its source table. -/
def InvC (C : Ctx) (db0 db : Database) : Prop :=
  db0.StaticEqv db ∧ needSubset C db

theorem find?_name_map (f : DBTable → DBTable)
    (hf : ∀ t, (f t).name = t.name) (l : List DBTable) (m : String) :
    (l.map f).find? (fun t => t.name = m) =
      (l.find? (fun t => t.name = m)).map f := by
  rw [List.find?_map]
  have hp : ((fun t : DBTable => decide (t.name = m)) ∘ f) =
      (fun t : DBTable => decide (t.name = m)) := by
    funext t
    simp [Function.comp, hf]
  rw [hp]

theorem staticPart_name (t : DBTable) : t.staticPart.name = t.name := rfl

theorem table?_addPks (db : Database) (n m : String) (s : Finset Nat) :
    (db.addPks n s).table? m =
      (db.table? m).map (fun t =>
        if t.name = n then { t with needTransferPks := t.needTransferPks ∪ s }
        else t) := by
  unfold Database.addPks Database.table?
  apply find?_name_map
  intro t
  by_cases h : t.name = n <;> simp [h]

theorem table?_markReady (db : Database) (n m : String) :
    (db.markReady n).table? m =
      (db.table? m).map (fun t =>
        if t.name = n then { t with isReady := true } else t) := by
  unfold Database.markReady Database.table?
  apply find?_name_map
  intro t
  by_cases h : t.name = n <;> simp [h]

theorem name_of_table? {db : Database} {n : String} {t : DBTable}
    (h : db.table? n = some t) : t.name = n := by
  have := List.find?_some h
  simpa using this

theorem mem_of_table? {db : Database} {n : String} {t : DBTable}
    (h : db.table? n = some t) : t ∈ db.tables :=
  List.mem_of_find?_eq_some h

theorem needOf_addPks_mono (db : Database) (n m : String) (s : Finset Nat) :
    db.needOf m ⊆ (db.addPks n s).needOf m := by
  unfold Database.needOf
  rw [table?_addPks]
  cases h : db.table? m with
  | none => simp
  | some t =>
      by_cases hn : t.name = n <;> simp [hn, Finset.subset_union_left]

theorem needOf_addPks_self {db : Database} {n : String} {t : DBTable}
    (h : db.table? n = some t) (s : Finset Nat) :
    (db.addPks n s).needOf n = db.needOf n ∪ s := by
  unfold Database.needOf
  rw [table?_addPks, h]
  simp [name_of_table? h]

theorem needOf_addPks_ne {db : Database} {n m : String} (h : m ≠ n)
    (s : Finset Nat) : (db.addPks n s).needOf m = db.needOf m := by
  unfold Database.needOf
  rw [table?_addPks]
  cases hm : db.table? m with
  | none => rfl
  | some t =>
      have : t.name = m := name_of_table? hm
      simp [this, h]

theorem needOf_markReady (db : Database) (n m : String) :
    (db.markReady n).needOf m = db.needOf m := by
  unfold Database.needOf
  rw [table?_markReady]
  cases hm : db.table? m with
  | none => rfl
  | some t => by_cases hn : t.name = n <;> simp [hn]

theorem staticEqv_refl (db : Database) : db.StaticEqv db := rfl

theorem staticEqv_trans {d1 d2 d3 : Database} (h1 : d1.StaticEqv d2)
    (h2 : d2.StaticEqv d3) : d1.StaticEqv d3 :=
  h1.trans h2

theorem staticEqv_addPks (db : Database) (n : String) (s : Finset Nat) :
    db.StaticEqv (db.addPks n s) := by
  unfold Database.StaticEqv Database.addPks
  rw [List.map_map]
  apply List.map_congr_left
  intro t _
  by_cases h : t.name = n <;> simp [Function.comp, h, DBTable.staticPart]

theorem staticEqv_markReady (db : Database) (n : String) :
    db.StaticEqv (db.markReady n) := by
  unfold Database.StaticEqv Database.markReady
  rw [List.map_map]
  apply List.map_congr_left
  intro t _
  by_cases h : t.name = n <;> simp [Function.comp, h, DBTable.staticPart]

theorem readyAll_addPks {db : Database} {m : String} (h : ReadyAll db m)
    (n : String) (s : Finset Nat) : ReadyAll (db.addPks n s) m := by
  intro t ht hname
  unfold Database.addPks at ht
  simp only [Database.addPks, List.mem_map] at ht
  obtain ⟨t0, ht0, rfl⟩ := ht
  by_cases hn : t0.name = n <;> simp_all [h t0 ht0]

theorem readyAll_markReady_mono {db : Database} {m : String}
    (h : ReadyAll db m) (n : String) : ReadyAll (db.markReady n) m := by
  intro t ht hname
  simp only [Database.markReady, List.mem_map] at ht
  obtain ⟨t0, ht0, rfl⟩ := ht
  by_cases hn : t0.name = n <;> simp_all [h t0 ht0]

theorem readyAll_markReady_self (db : Database) (n : String) :
    ReadyAll (db.markReady n) n := by
  intro t ht hname
  simp only [Database.markReady, List.mem_map] at ht
  obtain ⟨t0, ht0, rfl⟩ := ht
  by_cases hn : t0.name = n <;> simp_all

theorem evolves_refl (db : Database) : Evolves db db :=
  ⟨staticEqv_refl db, fun _ => Finset.Subset.refl _, fun _ h => h⟩

theorem evolves_trans {d1 d2 d3 : Database} (h1 : Evolves d1 d2)
    (h2 : Evolves d2 d3) : Evolves d1 d3 :=
  ⟨staticEqv_trans h1.1 h2.1,
   fun n => (h1.2.1 n).trans (h2.2.1 n),
   fun m hm => h2.2.2 m (h1.2.2 m hm)⟩

theorem evolves_addPks (db : Database) (n : String) (s : Finset Nat) :
    Evolves db (db.addPks n s) :=
  ⟨staticEqv_addPks db n s,
   fun m => needOf_addPks_mono db n m s,
   fun m hm => readyAll_addPks hm n s⟩

theorem evolves_markReady (db : Database) (n : String) :
    Evolves db (db.markReady n) := by
  refine ⟨staticEqv_markReady db n, fun m => ?_, fun m hm => readyAll_markReady_mono hm n⟩
  rw [needOf_markReady]

theorem evolves_foldl {α : Type} (step : Database → α → Database)
    (l : List α) (h : ∀ db a, a ∈ l → Evolves db (step db a)) (db : Database) :
    Evolves db (l.foldl step db) := by
  induction l generalizing db with
  | nil => exact evolves_refl db
  | cons a l ih =>
      refine evolves_trans (h db a (by simp)) (ih ?_ (step db a))
      intro db2 b hb
      exact h db2 b (by simp [hb])

theorem foldl_preserve {α : Type} {P : Database → Prop}
    (step : Database → α → Database) (l : List α)
    (h : ∀ db a, a ∈ l → P db → P (step db a)) (db : Database) (hdb : P db) :
    P (l.foldl step db) := by
  induction l generalizing db with
  | nil => exact hdb
  | cons a l ih =>
      exact ih (fun db2 b hb => h db2 b (by simp [hb])) (step db a)
        (h db a (by simp) hdb)

theorem evolves_collectKeyTableValues (C : Ctx) (db : Database) :
    Evolves db (collectKeyTableValues C db) :=
  evolves_trans (evolves_addPks db C.settings.keyTableName C.seed)
    (evolves_markReady _ C.settings.keyTableName)

theorem evolves_ite {db d1 d2 : Database} {c : Prop} [Decidable c]
    (h1 : Evolves db d1) (h2 : Evolves db d2) :
    Evolves db (if c then d1 else d2) := by
  split <;> assumption

theorem evolves_collectRevertTableIds (C : Ctx) (revTable : DBTable)
    (fkCol : DBColumn) (tname : String) (db : Database) :
    Evolves db (collectRevertTableIds C revTable fkCol tname db) := by
  simp only [collectRevertTableIds]
  exact evolves_ite (evolves_refl db) (evolves_addPks db tname _)

theorem evolves_collectImportingRevertTablesData (C : Ctx) (revName tname : String)
    (tWithKey : Bool) (db : Database) :
    Evolves db (collectImportingRevertTablesData C revName tname tWithKey db) := by
  simp only [collectImportingRevertTablesData]
  cases db.table? revName with
  | none => exact evolves_refl db
  | some revTable =>
      dsimp only
      split
      · exact evolves_refl db
      · split
        · exact evolves_refl db
        · exact evolves_foldl _ _
            (fun db2 c _ => evolves_collectRevertTableIds C revTable c tname db2) db

theorem evolves_foreignStep (C : Ctx)
    (recurse : DBTable → List Nat → List String → Nat → Database → Database)
    (hrec : ∀ t2 ch st dp db2, Evolves db2 (recurse t2 ch st dp db2))
    (t : DBTable) (col : DBColumn) (needPks : List Nat) (stack : List String)
    (deep : Nat) (db : Database) :
    Evolves db (foreignStep C recurse t col needPks stack deep db) := by
  simp only [foreignStep]
  cases col.constraintTable with
  | none => exact evolves_refl db
  | some fname =>
      dsimp only
      cases db.table? fname with
      | none => exact evolves_refl db
      | some ft =>
          dsimp only
          exact evolves_ite (evolves_refl db)
            (evolves_ite (evolves_refl db)
              (evolves_trans (evolves_addPks db fname _)
                (evolves_foldl _ _
                  (fun db2 ch _ => hrec ft ch stack _ db2) _)))

theorem evolves_recursivelyPreparingTable (C : Ctx) :
    ∀ (fuel : Nat) (t : DBTable) (pks : List Nat) (stack : List String)
      (deep : Nat) (db : Database),
      Evolves db (recursivelyPreparingTable C fuel t pks stack deep db) := by
  intro fuel
  induction fuel with
  | zero =>
      intro t pks stack deep db
      simp only [recursivelyPreparingTable]
      exact evolves_refl db
  | succ f ih =>
      intro t pks stack deep db
      simp only [recursivelyPreparingTable]
      split
      · exact evolves_refl db
      · exact evolves_foldl _ _
          (fun db2 col _ =>
            evolves_foreignStep C (recursivelyPreparingTable C f)
              (fun t2 ch st dp db3 => ih t2 ch st dp db3) t col pks
              (stack ++ [t.name]) deep db2) db

theorem evolves_recursivelyPreparingForeignTable (C : Ctx) (fuel : Nat)
    (t : DBTable) (col : DBColumn) (pks : List Nat) (stack : List String)
    (deep : Nat) (db : Database) :
    Evolves db (recursivelyPreparingForeignTable C fuel t col pks stack deep db) :=
  evolves_foreignStep C _
    (fun t2 ch st dp db2 => evolves_recursivelyPreparingTable C fuel t2 ch st dp db2)
    t col pks stack deep db

theorem evolves_prepareTablesWithKeyColumn (C : Ctx) (t : DBTable)
    (db : Database) : Evolves db (prepareTablesWithKeyColumn C t db) := by
  simp only [prepareTablesWithKeyColumn]
  refine evolves_trans ?_ (evolves_markReady _ t.name)
  exact evolves_ite (evolves_refl db)
    (evolves_trans (evolves_addPks db t.name _)
      (evolves_foldl _ _
        (fun db2 ch _ => evolves_recursivelyPreparingTable C 2 t ch [] 1 db2) _))

theorem evolves_phase2bRevertFold (C : Ctx) (tname : String) (tWithKey : Bool)
    (revNames : List String) (db : Database) :
    Evolves db (phase2bRevertFold C tname tWithKey revNames db) :=
  evolves_foldl _ _
    (fun db2 revName _ =>
      evolves_collectImportingRevertTablesData C revName tname tWithKey db2) db

theorem evolves_collectImportingFkTablesRecordsIds (C : Ctx) (tname : String)
    (db : Database) :
    Evolves db (collectImportingFkTablesRecordsIds C tname db) := by
  simp only [collectImportingFkTablesRecordsIds]
  cases db.table? tname with
  | none => exact evolves_refl db
  | some t =>
      dsimp only
      refine evolves_ite (evolves_refl db) (evolves_ite (evolves_refl db) ?_)
      refine evolves_trans
        (evolves_trans
          (evolves_addPks db tname
            (getTableColumnValues C t t.primaryKey [] (phase2bWhereConds db t).1))
          (evolves_phase2bRevertFold C tname t.withKey t.revertFkTables _)) ?_
      exact evolves_ite
        (evolves_trans (evolves_addPks _ tname _) (evolves_markReady _ tname))
        (evolves_markReady _ tname)

theorem evolves_prepareCommonTables (C : Ctx) (db : Database) :
    Evolves db (prepareCommonTables C db) := by
  simp only [prepareCommonTables]
  refine evolves_trans
    (evolves_foldl (fun acc t => prepareTablesWithKeyColumn C t acc)
      db.tablesWithKeyColumn
      (fun db2 t _ => evolves_prepareTablesWithKeyColumn C t db2) db) ?_
  apply evolves_foldl
  intro db2 n _
  exact evolves_ite (evolves_refl db2)
    (evolves_collectImportingFkTablesRecordsIds C n db2)

theorem evolves_prepareContentTypeGenericData (C : Ctx)
    (catalog : List (String × Nat)) (target : DBTable) (relTableName : String)
    (db : Database) :
    Evolves db (prepareContentTypeGenericData C catalog target relTableName db) := by
  simp only [prepareContentTypeGenericData]
  split
  · exact evolves_refl db
  · cases db.table? relTableName with
    | none => exact evolves_refl db
    | some relTable =>
        dsimp only
        cases target.columns.find? (fun c => c.name = "object_id") with
        | none => exact evolves_refl db
        | some objectIdColumn =>
            dsimp only
            split
            · exact evolves_refl db
            · exact evolves_addPks db target.name _

theorem evolves_prepareGenericTableData (C : Ctx)
    (catalog : List (String × Nat)) (gname : String) (db : Database) :
    Evolves db (prepareGenericTableData C catalog gname db) := by
  simp only [prepareGenericTableData]
  cases db.table? gname with
  | none => exact evolves_refl db
  | some target =>
      exact evolves_foldl _ _
        (fun db2 relName _ =>
          evolves_prepareContentTypeGenericData C catalog target relName db2) db

theorem evolves_collectGenericTablesRecordsIds (C : Ctx) (db : Database) :
    Evolves db (collectGenericTablesRecordsIds C db) := by
  simp only [collectGenericTablesRecordsIds]
  exact evolves_foldl _ _
    (fun db2 gname _ =>
      evolves_prepareGenericTableData C (contentTypeTable C) gname db2) db

theorem evolves_collect (C : Ctx) (db : Database) :
    Evolves db (collect C db) := by
  simp only [collect]
  exact evolves_trans (evolves_collectKeyTableValues C db)
    (evolves_trans (evolves_prepareCommonTables C _)
      (evolves_collectGenericTablesRecordsIds C _))

theorem table?_staticPart {d1 d2 : Database} (h : d1.StaticEqv d2)
    (n : String) :
    (d1.table? n).map DBTable.staticPart = (d2.table? n).map DBTable.staticPart := by
  have h1 := find?_name_map DBTable.staticPart staticPart_name d1.tables n
  have h2 := find?_name_map DBTable.staticPart staticPart_name d2.tables n
  unfold Database.table?
  rw [← h1, ← h2, h]

theorem table?_isSome_staticEqv {d1 d2 : Database} (h : d1.StaticEqv d2)
    (n : String) : (d1.table? n).isSome = (d2.table? n).isSome := by
  have := congrArg Option.isSome (table?_staticPart h n)
  simpa using this

theorem withKeyOf_staticEqv {d1 d2 : Database} (h : d1.StaticEqv d2)
    (n : String) : d1.withKeyOf n = d2.withKeyOf n := by
  have hs := table?_staticPart h n
  unfold Database.withKeyOf
  cases h1 : d1.table? n with
  | none =>
      cases h2 : d2.table? n with
      | none => rfl
      | some t2 => rw [h1, h2] at hs; simp at hs
  | some t1 =>
      cases h2 : d2.table? n with
      | none => rw [h1, h2] at hs; simp at hs
      | some t2 =>
          rw [h1, h2] at hs
          have hs2 : DBTable.staticPart t1 = DBTable.staticPart t2 :=
            Option.some.inj hs
          have hk : t1.keyColumn = t2.keyColumn :=
            show t1.staticPart.keyColumn = t2.staticPart.keyColumn from
              congrArg DBTable.keyColumn hs2
          simp [DBTable.withKey, hk]

theorem readyOf_of_readyAll {db : Database} {n : String}
    (h : ReadyAll db n) (hp : (db.table? n).isSome = true) :
    db.readyOf n = true := by
  unfold Database.readyOf
  cases ht : db.table? n with
  | none => rw [ht] at hp; simp at hp
  | some t => exact h t (mem_of_table? ht) (name_of_table? ht)

theorem readyAll_collectKeyTableValues (C : Ctx) (db : Database) :
    ReadyAll (collectKeyTableValues C db) C.settings.keyTableName := by
  simp only [collectKeyTableValues]
  exact readyAll_markReady_self _ _

theorem readyAll_prepareTablesWithKeyColumn (C : Ctx) (t : DBTable)
    (db : Database) : ReadyAll (prepareTablesWithKeyColumn C t db) t.name := by
  simp only [prepareTablesWithKeyColumn]
  exact readyAll_markReady_self _ _

theorem readyAll_phase2aFold (C : Ctx) :
    ∀ (l : List DBTable) (db : Database) (t0 : DBTable), t0 ∈ l →
      ReadyAll (l.foldl (fun acc t => prepareTablesWithKeyColumn C t acc) db)
        t0.name := by
  intro l
  induction l with
  | nil => intro db t0 h; simp at h
  | cons t1 l ih =>
      intro db t0 h
      rcases List.mem_cons.mp h with h1 | h1
      · subst h1
        simp only [List.foldl_cons]
        have hest := readyAll_prepareTablesWithKeyColumn C t0 db
        have hev := evolves_foldl (fun acc t => prepareTablesWithKeyColumn C t acc)
          l (fun db2 t _ => evolves_prepareTablesWithKeyColumn C t db2)
          (prepareTablesWithKeyColumn C t0 db)
        exact hev.2.2 t0.name hest
      · simp only [List.foldl_cons]
        exact ih _ t0 h1

/-- C2, counterexample.  On the exA fixture collect() returns, yet the
non-generic table W of the schema ends with is_ready_for_transferring still
false: its only foreign-key target X has an empty selection when W is
processed, so the phase 2b early return at collectors.py lines 284-289 skips
W before the ready flag is set.  This refutes the claim that every table in
scope ends ready. -/
theorem c2_counterexample :
    (collect exACtx exADb).readyOf "W" = false ∧
      (exADb.table? "W").isSome = true ∧
      "W" ∉ exACtx.settings.genericTables := by
  refine ⟨by decide, by decide, by decide⟩

/-- C2, amended.  Whenever collect() returns, the key table is marked ready
(phase 1) and so is every table with with_key_column (phase 2a); a table
processed in phase 2b is marked ready only when its step does not hit one of
the two early returns, so tables in scope can remain not ready, as the
counterexample shows. -/
theorem c2_readiness_of_key_and_anchored (C : Ctx) (db : Database) :
    ((db.table? C.settings.keyTableName).isSome = true →
      (collect C db).readyOf C.settings.keyTableName = true) ∧
    (∀ n, db.withKeyOf n = true → (collect C db).readyOf n = true) := by
  have hcollect : collect C db =
      collectGenericTablesRecordsIds C
        (prepareCommonTables C (collectKeyTableValues C db)) := rfl
  have hsAll : db.StaticEqv (collect C db) := (evolves_collect C db).1
  have hevRest :
      Evolves (collectKeyTableValues C db) (collect C db) := by
    rw [hcollect]
    exact evolves_trans (evolves_prepareCommonTables C _)
      (evolves_collectGenericTablesRecordsIds C _)
  constructor
  · intro hp
    have h1 : ReadyAll (collectKeyTableValues C db) C.settings.keyTableName :=
      readyAll_collectKeyTableValues C db
    have hra : ReadyAll (collect C db) C.settings.keyTableName :=
      hevRest.2.2 _ h1
    refine readyOf_of_readyAll hra ?_
    rw [← table?_isSome_staticEqv hsAll]
    exact hp
  · intro n hw
    have hp : (db.table? n).isSome = true := by
      unfold Database.withKeyOf at hw
      cases h : db.table? n with
      | none => rw [h] at hw; simp at hw
      | some t => simp [h]
    have hw1 : (collectKeyTableValues C db).withKeyOf n = true := by
      rw [← withKeyOf_staticEqv (evolves_collectKeyTableValues C db).1 n]
      exact hw
    unfold Database.withKeyOf at hw1
    cases h1 : (collectKeyTableValues C db).table? n with
    | none => rw [h1] at hw1; simp at hw1
    | some t1 =>
        rw [h1] at hw1
        have hmem : t1 ∈ (collectKeyTableValues C db).tablesWithKeyColumn :=
          List.mem_filter.mpr ⟨mem_of_table? h1, hw1⟩
        have hra2a :
            ReadyAll
              (((collectKeyTableValues C db).tablesWithKeyColumn).foldl
                (fun acc t => prepareTablesWithKeyColumn C t acc)
                (collectKeyTableValues C db)) t1.name :=
          readyAll_phase2aFold C _ _ t1 hmem
        have hsplit : prepareCommonTables C (collectKeyTableValues C db) =
            (phase2bOrder
              (((collectKeyTableValues C db).tablesWithKeyColumn).foldl
                (fun acc t => prepareTablesWithKeyColumn C t acc)
                (collectKeyTableValues C db)) C.settings).foldl
              (fun acc m =>
                if acc.readyOf m then acc
                else collectImportingFkTablesRecordsIds C m acc)
              (((collectKeyTableValues C db).tablesWithKeyColumn).foldl
                (fun acc t => prepareTablesWithKeyColumn C t acc)
                (collectKeyTableValues C db)) := rfl
    /- readiness of t1 survives phase 2b and phase 3 -/
        have hra2b :
            ReadyAll (prepareCommonTables C (collectKeyTableValues C db))
              t1.name := by
          rw [hsplit]
          refine (evolves_foldl _ _ (fun db2 m _ => ?_) _).2.2 _ hra2a
          exact evolves_ite (evolves_refl db2)
            (evolves_collectImportingFkTablesRecordsIds C m db2)
        have hraFin : ReadyAll (collect C db) t1.name := by
          rw [hcollect]
          exact (evolves_collectGenericTablesRecordsIds C _).2.2 _ hra2b
        have hname : t1.name = n := name_of_table? h1
        rw [hname] at hraFin
        refine readyOf_of_readyAll hraFin ?_
        rw [← table?_isSome_staticEqv hsAll]
        exact hp

/-- C2, witness for the amended readiness guarantee, on the exA fixture:
the key table O and the key-anchored table K end ready. -/

theorem table?_addPks_ne {db : Database} {n m : String} (h : m ≠ n)
    (s : Finset Nat) : (db.addPks n s).table? m = db.table? m := by
  rw [table?_addPks]
  cases hm : db.table? m with
  | none => rfl
  | some t =>
      have : t.name = m := name_of_table? hm
      simp [this, h]

theorem table?_frame_collectRevertTableIds (C : Ctx) (revTable : DBTable)
    (fkCol : DBColumn) {tname m : String} (h : m ≠ tname) (db : Database) :
    (collectRevertTableIds C revTable fkCol tname db).table? m = db.table? m := by
  simp only [collectRevertTableIds]
  split
  · rfl
  · exact table?_addPks_ne h _

theorem table?_frame_collectImportingRevertTablesData (C : Ctx)
    (revName : String) {tname m : String} (h : m ≠ tname) (twk : Bool)
    (db : Database) :
    (collectImportingRevertTablesData C revName tname twk db).table? m =
      db.table? m := by
  simp only [collectImportingRevertTablesData]
  cases db.table? revName with
  | none => rfl
  | some revTable =>
      dsimp only
      split
      · rfl
      · split
        · rfl
        · exact foldl_preserve (P := fun d => d.table? m = db.table? m) _ _
            (fun d c _ hd =>
              (table?_frame_collectRevertTableIds C revTable c h d).trans hd)
            db rfl

theorem table?_frame_phase2bRevertFold (C : Ctx) {tname m : String}
    (h : m ≠ tname) (twk : Bool) (revNames : List String) (db : Database) :
    (phase2bRevertFold C tname twk revNames db).table? m = db.table? m := by
  simp only [phase2bRevertFold]
  exact foldl_preserve (P := fun d => d.table? m = db.table? m) _ _
    (fun d rn _ hd =>
      (table?_frame_collectImportingRevertTablesData C rn h twk d).trans hd)
    db rfl

theorem fksWithKeyColumn_congr {db1 db2 : Database}
    (h : ∀ u, db1.withKeyOf u = db2.withKeyOf u) (t : DBTable) :
    t.fksWithKeyColumn db1 = t.fksWithKeyColumn db2 := by
  unfold DBTable.fksWithKeyColumn
  apply List.filter_congr
  intro c _
  cases c.constraintTable with
  | none => rfl
  | some u => exact h u

/-- Local closure guarantee of one revert pass: when the referencing table
is found, not skipped by the key-column rule and has a nonempty selection,
the values its foreign-key column projects over that selection all end up in
the selection of the table being prepared. -/
theorem revert_step_closure (C : Ctx) (revName tname : String) (twk : Bool)
    (db : Database) (revT : DBTable)
    (hrt : db.table? revName = some revT)
    (hskip : (revT.fksWithKeyColumn db).isEmpty = true ∨ twk = true)
    (hne : revT.needTransferPks ≠ ∅)
    (hp : (db.table? tname).isSome = true)
    (fkCol : DBColumn) (hcol : fkCol ∈ revT.columnsReferencing tname) :
    revertFetch C revT fkCol
      ⊆ (collectImportingRevertTablesData C revName tname twk db).needOf tname := by
  have hguard : (!(revT.fksWithKeyColumn db).isEmpty && !twk) = false := by
    rcases hskip with h | h <;> simp [h]
  simp only [collectImportingRevertTablesData, hrt]
  rw [if_neg (show ¬((!(revT.fksWithKeyColumn db).isEmpty && !twk) = true) by
        simp [hguard]),
    if_neg hne]
  obtain ⟨l1, l2, hsplit⟩ := List.append_of_mem hcol
  rw [hsplit, List.foldl_append, List.foldl_cons]
  set db1 :=
    l1.foldl (fun acc c => collectRevertTableIds C revT c tname acc) db with hdb1
  have hp1 : (db1.table? tname).isSome = true := by
    have hev := evolves_foldl (fun acc c => collectRevertTableIds C revT c tname acc)
      l1 (fun d c _ => evolves_collectRevertTableIds C revT c tname d) db
    rw [hdb1, ← table?_isSome_staticEqv hev.1 tname]
    exact hp
  have hstep : revertFetch C revT fkCol
      ⊆ (collectRevertTableIds C revT fkCol tname db1).needOf tname := by
    simp only [collectRevertTableIds]
    split
    · rename_i hempty
      rw [hempty]
      exact Finset.empty_subset _
    · cases ht1 : db1.table? tname with
      | none => rw [ht1] at hp1; simp at hp1
      | some t1 =>
          rw [needOf_addPks_self ht1]
          exact Finset.subset_union_right
  exact hstep.trans
    ((evolves_foldl (fun acc c => collectRevertTableIds C revT c tname acc) l2
      (fun d c _ => evolves_collectRevertTableIds C revT c tname d)
      (collectRevertTableIds C revT fkCol tname db1)).2.1 tname)
/-- C1, counterexample.  On the exA fixture collect() returns with table R
marked ready and row 100 selected, the source row 100 of R carries the
non-NULL forward foreign-key value 500 in column w_id referencing the
non-excluded table W, yet 500 is not in the selection of W (which stayed
empty because its phase 2b processing was skipped): referential closure
fails after a successful collect(). -/
theorem c1_counterexample :
    (collect exACtx exADb).readyOf "R" = true ∧
      100 ∈ (collect exACtx exADb).needOf "R" ∧
      (exADb.table? "R").map (fun t => t.notSelfFkColumns) =
        some [intCol "k_id" (some "K"), intCol "w_id" (some "W")] ∧
      ((exACtx.src.rowsOf "R").find? (fun r => r.pk = 100)).map
          (fun r => r.read "i" "w_id") = some (some 500) ∧
      "W" ∉ exACtx.settings.excludedTables ∧
      500 ∉ (collect exACtx exADb).needOf "W" := by
  refine ⟨by decide, by decide, by decide, by decide, by decide, by decide⟩

/-- C1, amended.  The global referential-closure claim fails (see the
counterexample); what the code does guarantee is the local closure step it
is built from: when the phase 2b processing of a table completes (neither
early return fires), then for every entry of its revert index naming a
different table that is present, not skipped by the key-column rule and
already holding a nonempty selection, the whole revert projection of each of
its columns referencing the processed table is contained in the processed
table selection from that moment on. -/
theorem c1_reverse_expansion_closure (C : Ctx) (tname : String)
    (db : Database) (t : DBTable) (ht : db.table? tname = some t)
    (h1 : (!(phase2bFkColumns db t).isEmpty &&
            (phase2bWhereConds db t).1.isEmpty &&
            !(phase2bWhereConds db t).2) = false)
    (h2 : (!(phase2bFkColumns db t).isEmpty &&
            !(phase2bWhereConds db t).1.isEmpty &&
            decide (getTableColumnValues C t t.primaryKey []
              (phase2bWhereConds db t).1 = ∅)) = false)
    (revName : String) (hrev : revName ∈ t.revertFkTables)
    (hdiff : revName ≠ tname)
    (revT : DBTable) (hrt : db.table? revName = some revT)
    (hskip : (revT.fksWithKeyColumn db).isEmpty = true ∨ t.withKey = true)
    (hne : revT.needTransferPks ≠ ∅)
    (fkCol : DBColumn) (hcol : fkCol ∈ revT.columnsReferencing tname) :
    revertFetch C revT fkCol
      ⊆ (collectImportingFkTablesRecordsIds C tname db).needOf tname := by
  simp only [collectImportingFkTablesRecordsIds, ht]
  rw [if_neg (by simp [h1]), if_neg (by simp [h2])]
  set db0 := db.addPks tname
    (getTableColumnValues C t t.primaryKey [] (phase2bWhereConds db t).1)
    with hdb0
  have hev0 : Evolves db db0 := evolves_addPks db tname _
  /- the tail after the revert fold only grows the selection -/
  have htail : ∀ d : Database,
      d.needOf tname ⊆
        ((if d.needOf tname = ∅ then
            (d.addPks tname
              (getTableColumnValues C t t.primaryKey [] [])).markReady tname
          else d.markReady tname)).needOf tname := by
    intro d
    refine (evolves_ite
      (evolves_trans (evolves_addPks d tname _) (evolves_markReady _ tname))
      (evolves_markReady d tname)).2.1 tname
  refine Finset.Subset.trans ?_ (htail _)
  /- split the revert fold at revName -/
  simp only [phase2bRevertFold]
  obtain ⟨l1, l2, hsplit⟩ := List.append_of_mem hrev
  rw [hsplit, List.foldl_append, List.foldl_cons]
  set db1 := l1.foldl
    (fun acc revName => collectImportingRevertTablesData C revName tname
      t.withKey acc) db0 with hdb1
  have hev1 : Evolves db0 db1 := by
    rw [hdb1]
    exact evolves_foldl _ _
      (fun d rn _ =>
        evolves_collectImportingRevertTablesData C rn tname t.withKey d) db0
  have hframe1 : db1.table? revName = db.table? revName := by
    rw [hdb1]
    have hstep := foldl_preserve
      (P := fun d => d.table? revName = db.table? revName)
      (fun acc rn => collectImportingRevertTablesData C rn tname t.withKey acc)
      l1
      (fun d rn _ hd =>
        (table?_frame_collectImportingRevertTablesData C rn hdiff t.withKey
          d).trans hd)
      db0 (table?_addPks_ne hdiff _)
    exact hstep
  have hwk : ∀ u, db1.withKeyOf u = db.withKeyOf u := fun u => by
    rw [← withKeyOf_staticEqv (evolves_trans hev0 hev1).1 u]
  have hp1 : (db1.table? tname).isSome = true := by
    rw [← table?_isSome_staticEqv (evolves_trans hev0 hev1).1 tname, ht]
    rfl
  have hrt1 : db1.table? revName = some revT := by rw [hframe1]; exact hrt
  have hskip1 : (revT.fksWithKeyColumn db1).isEmpty = true ∨ t.withKey = true := by
    rw [fksWithKeyColumn_congr hwk revT]
    exact hskip
  have hstep := revert_step_closure C revName tname t.withKey db1 revT hrt1
    hskip1 hne hp1 fkCol hcol
  refine Finset.Subset.trans hstep ?_
  exact (evolves_foldl _ l2
    (fun d rn _ =>
      evolves_collectImportingRevertTablesData C rn tname t.withKey d)
    (collectImportingRevertTablesData C revName tname t.withKey db1)).2.1 tname

/-- C1, witness for the local reverse-expansion closure, on the exB fixture:
the projection of Q.q_p over the selection of Q lands in the selection of P
after P is processed. -/
theorem c1_reverse_expansion_closure_witness :
    revertFetch exBCtx
        { mkTable "Q" [intCol "q_p" (some "P")] none [] with
            needTransferPks := {7} }
        (intCol "q_p" (some "P"))
      ⊆ (collectImportingFkTablesRecordsIds exBCtx "P" exBDb).needOf "P" :=
  c1_reverse_expansion_closure exBCtx "P" exBDb
    (mkTable "P" [] none ["Q"]) (by decide) (by decide) (by decide)
    "Q" (by decide) (by decide)
    ({ mkTable "Q" [intCol "q_p" (some "P")] none [] with
        needTransferPks := {7} })
    (by decide) (Or.inl (by decide)) (by decide)
    (intCol "q_p" (some "P")) (by decide)

theorem c2_readiness_witness :
    (collect exACtx exADb).readyOf "O" = true ∧
      (collect exACtx exADb).readyOf "K" = true := by
  refine ⟨?_, ?_⟩
  · exact (c2_readiness_of_key_and_anchored exACtx exADb).1 (by decide)
  · exact (c2_readiness_of_key_and_anchored exACtx exADb).2 "K" (by decide)

/-- C3, counterexample.  In the collector, a PostgresSyntaxError raised by
the driver during a per-chunk fetch is not re-raised: the except branch at
collectors.py lines 142-147 replaces the rows with an empty list, so the
call returns an ordinary empty result. -/
theorem c3_counterexample :
    getConstraintTableIdsPart (Except.error PgError.postgresSyntax) [] =
      Except.ok [] := rfl

/-- C3, amended.  During a chunk transfer in the transporter every driver
error, in particular UndefinedColumnError, NotNullViolationError and
PostgresSyntaxError, is logged and re-raised; during a per-chunk fetch in
the collector only a PostgresSyntaxError is caught, logged and converted
into an empty result (the accumulator is returned unchanged), while the
other driver errors propagate. -/
theorem c3_error_propagation (e : PgError) (acc : List Nat)
    (table : TransferTable) :
    (getConstraintTableIdsPart (Except.error e) acc =
        if e = PgError.postgresSyntax then Except.ok acc
        else Except.error e) ∧
      transferChunkTableData (Except.error e) table = Except.error e := by
  cases e <;> exact ⟨rfl, rfl⟩

/-- C10.  The generic-table guards are silent no-ops: when the candidate
related table is absent from the destination schema, and likewise when it is
present but its primary-key data type differs from the data type of the
object_id column of the generic table, _prepare_content_type_generic_data
returns with the whole schema state unchanged, in particular without any
partial mutation of the generic table selection. -/
theorem c10_generic_guard_no_op (C : Ctx) (catalog : List (String × Nat))
    (target : DBTable) (relTableName : String) (db : Database) :
    (db.table? relTableName = none →
      prepareContentTypeGenericData C catalog target relTableName db = db) ∧
    (∀ relT objCol, db.table? relTableName = some relT →
      target.columns.find? (fun c => c.name = "object_id") = some objCol →
      relT.primaryKey.dataType ≠ objCol.dataType →
      prepareContentTypeGenericData C catalog target relTableName db = db) := by
  constructor
  · intro h
    simp only [prepareContentTypeGenericData, h]
    split <;> rfl
  · intro relT objCol h1 h2 h3
    simp only [prepareContentTypeGenericData, h1, h2]
    rw [if_pos h3]
    split <;> rfl

/-- C10, witness on the exG fixture: the related name Z is absent from the
schema, and the related table Y has a bigint primary key while object_id of
G is an integer; both guards leave the state unchanged. -/
theorem c10_generic_guard_no_op_witness :
    prepareContentTypeGenericData exGCtx [] (mkTable "G"
        [intCol "object_id" none, intCol "content_type_id" none] none [])
        "Z" exGDb = exGDb ∧
      prepareContentTypeGenericData exGCtx [] (mkTable "G"
        [intCol "object_id" none, intCol "content_type_id" none] none [])
        "Y" exGDb = exGDb := by
  constructor
  · exact (c10_generic_guard_no_op exGCtx [] _ "Z" exGDb).1 (by decide)
  · exact (c10_generic_guard_no_op exGCtx [] _ "Y" exGDb).2
      ⟨"Y", ⟨"i", "bigint", some "Y", true⟩, [], none, [], false, ∅, false⟩
      (intCol "object_id" none) (by decide) (by decide) (by decide)
theorem ctFold_frozen (srcD : List ((String × String) × Nat)) :
    ∀ (l : List ((String × String) × String))
      (p : List (String × Nat) × Option (String × String)) (k : String × String),
      p.2 = some k →
      l.foldl
        (fun acc e =>
          match acc.2 with
          | some _ => acc
          | none =>
              match dictGet? srcD e.1 with
              | some ctId => (dictInsert acc.1 e.2 ctId, none)
              | none => (acc.1, some e.1))
        p = p := by
  intro l
  induction l with
  | nil => intro p k hp; rfl
  | cons e l ih =>
      intro p k hp
      rw [List.foldl_cons]
      have hstep :
          (match p.2 with
            | some _ => p
            | none =>
                match dictGet? srcD e.1 with
                | some ctId => (dictInsert p.1 e.2 ctId, none)
                | none => (p.1, some e.1)) = p := by
        rw [hp]
      rw [hstep]
      exact ih p k hp

theorem ctFold_error (srcD : List ((String × String) × Nat)) :
    ∀ (l : List ((String × String) × String))
      (p : List (String × Nat) × Option (String × String)) (k : String × String),
      (l.foldl
        (fun acc e =>
          match acc.2 with
          | some _ => acc
          | none =>
              match dictGet? srcD e.1 with
              | some ctId => (dictInsert acc.1 e.2 ctId, none)
              | none => (acc.1, some e.1))
        p).2 = some k →
      p.2 = some k ∨ dictGet? srcD k = none := by
  intro l
  induction l with
  | nil => intro p k hp; exact Or.inl hp
  | cons e l ih =>
      intro p k hp
      rw [List.foldl_cons] at hp
      cases hp2 : p.2 with
      | some k0 =>
          have hstep :
              (match p.2 with
                | some _ => p
                | none =>
                    match dictGet? srcD e.1 with
                    | some ctId => (dictInsert p.1 e.2 ctId, none)
                    | none => (p.1, some e.1)) = p := by
            rw [hp2]
          rw [hstep] at hp
          rcases ih p k hp with h | h
          · exact Or.inl (hp2.symm.trans h)
          · exact Or.inr h
      | none =>
          simp only [hp2] at hp
          cases hsrc : dictGet? srcD e.1 with
          | some ctId =>
              simp only [hsrc] at hp
              rcases ih _ k hp with h | h
              · simp at h
              · exact Or.inr h
          | none =>
              simp only [hsrc] at hp
              rw [ctFold_frozen srcD l _ e.1 rfl] at hp
              simp at hp
              right
              rw [← hp]
              exact hsrc

theorem ctFold_ok (srcD : List ((String × String) × Nat)) :
    ∀ (l : List ((String × String) × String)) (acc : List (String × Nat)),
      (∀ e ∈ l, (dictGet? srcD e.1).isSome = true) →
      l.foldl
        (fun acc e =>
          match acc.2 with
          | some _ => acc
          | none =>
              match dictGet? srcD e.1 with
              | some ctId => (dictInsert acc.1 e.2 ctId, none)
              | none => (acc.1, some e.1))
        (acc, none) =
      (l.foldl
        (fun acc e =>
          match dictGet? srcD e.1 with
          | some ctId => dictInsert acc e.2 ctId
          | none => acc)
        acc, none) := by
  intro l
  induction l with
  | nil => intro acc h; rfl
  | cons e l ih =>
      intro acc h
      have he : (dictGet? srcD e.1).isSome = true := h e (by simp)
      cases hsrc : dictGet? srcD e.1 with
      | none => rw [hsrc] at he; simp at he
      | some ctId =>
          simp only [List.foldl_cons, hsrc]
          exact ih (dictInsert acc e.2 ctId) (fun e2 he2 => h e2 (by simp [he2]))

/-- C4, counterexample.  With a destination catalog holding the pairs
(a, m) and (a2, m2) and a source catalog holding only (a2, m2), the
destination pair (a, m) is not simply omitted: the lookup at collectors.py
lines 639-642 raises KeyError on it, aborting the construction with the
catalog still empty, whereas the intersection described by the spec would
yield the entry (t2, 9). -/
theorem c4_counterexample :
    prepareContentTypeTables [("t1", "a", "m"), ("t2", "a2", "m2")]
        [(9, "a2", "m2")] = ([], some ("a", "m")) ∧
      contentTypeCatalogSpec [("t1", "a", "m"), ("t2", "a2", "m2")]
        [(9, "a2", "m2")] = [("t2", 9)] ∧
      (prepareContentTypeTables [("t1", "a", "m"), ("t2", "a2", "m2")]
        [(9, "a2", "m2")]).1 ≠
        contentTypeCatalogSpec [("t1", "a", "m"), ("t2", "a2", "m2")]
          [(9, "a2", "m2")] := by
  refine ⟨by decide, by decide, by decide⟩

/-- C4, amended.  The catalog construction iterates over the destination
dict and looks every (app_label, model) key up in the source dict without a
guard: when every destination key is present in the source the result is
exactly the intersection map of the spec; a destination key missing from the
source raises KeyError, which aborts the construction at that point (the
entries built so far persist and collect() itself continues, because
asyncio.wait at collectors.py line 717 swallows the task exception), and the
reported key is indeed absent from the source dict. -/
theorem c4_content_type_catalog (ctDst : List (String × String × String))
    (ctSrc : List (Nat × String × String)) :
    ((∀ e ∈ ctDstDict ctDst, (dictGet? (ctSrcDict ctSrc) e.1).isSome = true) →
      prepareContentTypeTables ctDst ctSrc =
        (contentTypeCatalogSpec ctDst ctSrc, none)) ∧
    (∀ k, (prepareContentTypeTables ctDst ctSrc).2 = some k →
      dictGet? (ctSrcDict ctSrc) k = none) := by
  constructor
  · intro h
    simp only [prepareContentTypeTables, contentTypeCatalogSpec]
    exact ctFold_ok (ctSrcDict ctSrc) (ctDstDict ctDst) [] h
  · intro k hk
    simp only [prepareContentTypeTables] at hk
    rcases ctFold_error (ctSrcDict ctSrc) (ctDstDict ctDst) ([], none) k hk with
      h | h
    · simp at h
    · exact h

/-- C4, witness for the amended catalog construction: with both pairs
present in the source, the result is the full intersection map and no error
is raised. -/
theorem c4_content_type_catalog_witness :
    prepareContentTypeTables [("t1", "a", "m"), ("t2", "a2", "m2")]
        [(7, "a", "m"), (9, "a2", "m2")] =
      (contentTypeCatalogSpec [("t1", "a", "m"), ("t2", "a2", "m2")]
        [(7, "a", "m"), (9, "a2", "m2")], none) :=
  (c4_content_type_catalog [("t1", "a", "m"), ("t2", "a2", "m2")]
    [(7, "a", "m"), (9, "a2", "m2")]).1 (by decide)
/-- C7, counterexample.  On the single-table fixture the table V has no
foreign-key columns at all and its source table is empty: its phase 2b
processing reaches the final stage with an empty selection and issues the
pull-all fetch, although the condition of the claim (FK columns present with
no selected targets) is false. -/
theorem c7_counterexample :
    pullAllFired exWCtx "V" exWDb = true ∧
      (exWDb.table? "V").map (fun t => t.notSelfFkColumns) = some [] ∧
      (exWDb.table? "V").map (fun t => phase2bFkColumns exWDb t) = some [] := by
  refine ⟨by decide, by decide, by decide⟩

/-- C7, amended.  The pull-all fetch is issued exactly when the step passes
both early-return guards (lines 284-289 and 306-307) and the selection is
still empty after the direct fetch and the reverse expansion - regardless of
whether the table has foreign-key columns; a table whose guards fire never
issues it. -/
theorem c7_pull_all_characterization (C : Ctx) (tname : String)
    (db : Database) (t : DBTable) (ht : db.table? tname = some t) :
    pullAllFired C tname db = true ↔
      ((!(phase2bFkColumns db t).isEmpty &&
          (phase2bWhereConds db t).1.isEmpty &&
          !(phase2bWhereConds db t).2) = false ∧
        (!(phase2bFkColumns db t).isEmpty &&
          !(phase2bWhereConds db t).1.isEmpty &&
          decide (getTableColumnValues C t t.primaryKey []
            (phase2bWhereConds db t).1 = ∅)) = false ∧
        (phase2bRevertFold C tname t.withKey t.revertFkTables
          (db.addPks tname (getTableColumnValues C t t.primaryKey []
            (phase2bWhereConds db t).1))).needOf tname = ∅) := by
  by_cases h1 : (!(phase2bFkColumns db t).isEmpty &&
      (phase2bWhereConds db t).1.isEmpty && !(phase2bWhereConds db t).2) = true
  · simp [pullAllFired, ht, h1]
  · rw [Bool.not_eq_true] at h1
    by_cases h2 : (!(phase2bFkColumns db t).isEmpty &&
        !(phase2bWhereConds db t).1.isEmpty &&
        decide (getTableColumnValues C t t.primaryKey []
          (phase2bWhereConds db t).1 = ∅)) = true
    · simp [pullAllFired, ht, h1, h2]
    · rw [Bool.not_eq_true] at h2
      simp [pullAllFired, ht, h1, h2]

/-- C7, witness for the pull-all characterization, on the single-table
fixture. -/
theorem c7_pull_all_characterization_witness :
    pullAllFired exWCtx "V" exWDb = true ↔
      ((!(phase2bFkColumns exWDb (mkTable "V" [] none [])).isEmpty &&
          (phase2bWhereConds exWDb (mkTable "V" [] none [])).1.isEmpty &&
          !(phase2bWhereConds exWDb (mkTable "V" [] none [])).2) = false ∧
        (!(phase2bFkColumns exWDb (mkTable "V" [] none [])).isEmpty &&
          !(phase2bWhereConds exWDb (mkTable "V" [] none [])).1.isEmpty &&
          decide (getTableColumnValues exWCtx (mkTable "V" [] none [])
            (mkTable "V" [] none []).primaryKey []
            (phase2bWhereConds exWDb (mkTable "V" [] none [])).1 = ∅)) = false ∧
        (phase2bRevertFold exWCtx "V" (mkTable "V" [] none []).withKey
          (mkTable "V" [] none []).revertFkTables
          (exWDb.addPks "V" (getTableColumnValues exWCtx
            (mkTable "V" [] none []) (mkTable "V" [] none []).primaryKey []
            (phase2bWhereConds exWDb (mkTable "V" [] none [])).1))).needOf
          "V" = ∅) :=
  c7_pull_all_characterization exWCtx "V" exWDb (mkTable "V" [] none [])
    (by decide)
/-- C8.  Cycle safety and termination of the bounded recursion, as the code
arranges it: the recursion stops as soon as the depth counter reaches zero
(collectors.py line 465); a foreign table already on the visited stack or
carrying a key column is skipped untouched (lines 386-390); only the set
difference with the already selected identifiers is recursed into (lines
421-449, visible in the definition of foreignStep); and on the concrete
cyclic schema A referencing B referencing A, collect() terminates with
exactly the rows reachable from the seed. -/
theorem c8_cycle_safety :
    (∀ (C : Ctx) (fuel : Nat) (t : DBTable) (pks : List Nat)
        (stack : List String) (db : Database),
        recursivelyPreparingTable C fuel t pks stack 0 db = db) ∧
      (∀ (C : Ctx) (fuel : Nat) (t : DBTable) (col : DBColumn)
        (pks : List Nat) (stack : List String) (deep : Nat) (db : Database)
        (fname : String) (ft : DBTable),
        col.constraintTable = some fname → db.table? fname = some ft →
        (fname ∈ stack ∨ ft.withKey = true) →
        recursivelyPreparingForeignTable C fuel t col pks stack deep db = db) ∧
      (collect exCycCtx exCycDb).tables.map
          (fun t => (t.name, pkList t.needTransferPks, t.isReady)) =
        [("O", [1], true), ("A", [10], true), ("B", [20], true)] := by
  refine ⟨?_, ?_, by decide⟩
  · intro C fuel t pks stack db
    cases fuel with
    | zero => rfl
    | succ f => simp [recursivelyPreparingTable]
  · intro C fuel t col pks stack deep db fname ft hcol hft hskip
    simp only [recursivelyPreparingForeignTable, foreignStep, hcol, hft]
    rw [if_pos]
    rcases hskip with h | h
    · simp [h]
    · simp [h]

/-- C8, witness: the three parts instantiated on the cyclic fixture. -/
theorem c8_cycle_safety_witness :
    recursivelyPreparingTable exCycCtx 2
        (mkTable "A" [intCol "k" none, intCol "b_id" (some "B")] (some "k")
          ["B"]) [10] [] 0 exCycDb = exCycDb ∧
      recursivelyPreparingForeignTable exCycCtx 1
        (mkTable "B" [intCol "a_id" (some "A")] none ["A"])
        (intCol "a_id" (some "A")) [] [] 1 exCycDb = exCycDb ∧
      (collect exCycCtx exCycDb).tables.map
          (fun t => (t.name, pkList t.needTransferPks, t.isReady)) =
        [("O", [1], true), ("A", [10], true), ("B", [20], true)] :=
  ⟨c8_cycle_safety.1 exCycCtx 2 _ [10] [] exCycDb,
   c8_cycle_safety.2.1 exCycCtx 1 _ (intCol "a_id" (some "A")) [] [] 1 exCycDb
     "A" (mkTable "A" [intCol "k" none, intCol "b_id" (some "B")] (some "k")
       ["B"]) (by decide) (by decide) (Or.inr (by decide)),
   c8_cycle_safety.2.2⟩
theorem sourceIntegrity_spec {C : Ctx} {db : Database}
    (h : sourceIntegrity C db = true) :
    ∀ t ∈ db.tables, ∀ c ∈ t.columns, ∀ u, c.constraintTable = some u →
      ∀ row ∈ C.src.rowsOf t.name, ∀ v,
        row.read t.primaryKey.name c.name = some v → v ∈ C.src.pksOf u := by
  intro t ht c hc u hu row hrow v hv
  unfold sourceIntegrity at h
  rw [List.all_eq_true] at h
  have h1 := h t ht
  rw [List.all_eq_true] at h1
  have h2 := h1 c hc
  rw [hu] at h2
  rw [List.all_eq_true] at h2
  have h3 := h2 row hrow
  rw [hv] at h3
  simpa using h3

theorem getTableColumnValues_mem {C : Ctx} {t : DBTable} {col : DBColumn}
    {pkv : List Nat} {wc : List (String × Finset Nat)} {v : Nat}
    (hv : v ∈ getTableColumnValues C t col pkv wc) :
    ∃ row ∈ C.src.rowsOf t.name,
      row.read t.primaryKey.name col.name = some v := by
  unfold getTableColumnValues at hv
  cases hcol : col.constraintTable with
  | none => rw [hcol] at hv; simp at hv
  | some u =>
      rw [hcol] at hv
      dsimp only at hv
      split at hv
      · simp at hv
      · rw [List.mem_toFinset, List.mem_filterMap] at hv
        obtain ⟨row, hrow, hread⟩ := hv
        exact ⟨row, List.mem_of_mem_filter hrow, hread⟩

theorem pk_fetch_subset (C : Ctx) (t : DBTable) (pkv : List Nat)
    (wc : List (String × Finset Nat)) :
    getTableColumnValues C t t.primaryKey pkv wc ⊆ C.src.pksOf t.name := by
  intro v hv
  obtain ⟨row, hrow, hread⟩ := getTableColumnValues_mem hv
  unfold SrcRow.read at hread
  rw [if_pos rfl] at hread
  have : row.pk = v := Option.some.inj hread
  unfold SrcDB.pksOf
  rw [List.mem_toFinset, List.mem_map]
  exact ⟨row, hrow, this⟩

theorem schemaTableOf_of_mem {db : Database} {t : DBTable}
    (h : t ∈ db.tables) : SchemaTableOf db t :=
  List.mem_map_of_mem DBTable.staticPart h

theorem schemaTableOf_staticEqv {d1 d2 : Database} {t : DBTable}
    (h : d1.StaticEqv d2) (ht : SchemaTableOf d1 t) : SchemaTableOf d2 t := by
  unfold SchemaTableOf at ht ⊢
  rw [← h]
  exact ht

theorem fk_fetch_subset {C : Ctx} {db0 : Database}
    (hI : sourceIntegrity C db0 = true) {t : DBTable}
    (hT : SchemaTableOf db0 t) {col : DBColumn} (hc : col ∈ t.columns)
    {u : String} (hcu : col.constraintTable = some u) (pkv : List Nat)
    (wc : List (String × Finset Nat)) :
    getTableColumnValues C t col pkv wc ⊆ C.src.pksOf u := by
  intro v hv
  obtain ⟨row, hrow, hread⟩ := getTableColumnValues_mem hv
  unfold SchemaTableOf at hT
  rw [List.mem_map] at hT
  obtain ⟨t0, ht0, hstat⟩ := hT
  have hcols : t0.columns = t.columns :=
    show t0.staticPart.columns = t.staticPart.columns from
      congrArg DBTable.columns hstat
  have hname : t0.name = t.name :=
    show t0.staticPart.name = t.staticPart.name from
      congrArg DBTable.name hstat
  have hpk : t0.primaryKey = t.primaryKey :=
    show t0.staticPart.primaryKey = t.staticPart.primaryKey from
      congrArg DBTable.primaryKey hstat
  refine sourceIntegrity_spec hI t0 ht0 col ?_ u hcu row ?_ v ?_
  · rw [hcols]; exact hc
  · rw [hname]; exact hrow
  · rw [hpk]; exact hread

theorem needSubset_addPks {C : Ctx} {db : Database} {n : String}
    {s : Finset Nat} (hN : needSubset C db)
    (hs : n = C.settings.keyTableName ∨ s ⊆ C.src.pksOf n) :
    needSubset C (db.addPks n s) := by
  intro t2 ht2
  simp only [Database.addPks, List.mem_map] at ht2
  obtain ⟨t, ht, rfl⟩ := ht2
  by_cases hn : t.name = n
  · rw [if_pos hn]
    rcases hs with h | h
    · exact Or.inl (hn.trans h)
    · rcases hN t ht with hk | hsub
      · exact Or.inl hk
      · exact Or.inr
          (Finset.union_subset hsub (by rw [hn]; exact h))
  · rw [if_neg hn]
    exact hN t ht

theorem needSubset_markReady {C : Ctx} {db : Database} {n : String}
    (hN : needSubset C db) : needSubset C (db.markReady n) := by
  intro t2 ht2
  simp only [Database.markReady, List.mem_map] at ht2
  obtain ⟨t, ht, rfl⟩ := ht2
  by_cases hn : t.name = n
  · rw [if_pos hn]
    exact hN t ht
  · rw [if_neg hn]
    exact hN t ht
theorem invC_addPks {C : Ctx} {db0 db : Database} {n : String} {s : Finset Nat}
    (h : InvC C db0 db)
    (hs : n = C.settings.keyTableName ∨ s ⊆ C.src.pksOf n) :
    InvC C db0 (db.addPks n s) :=
  ⟨staticEqv_trans h.1 (staticEqv_addPks db n s), needSubset_addPks h.2 hs⟩

theorem invC_markReady {C : Ctx} {db0 db : Database} {n : String}
    (h : InvC C db0 db) : InvC C db0 (db.markReady n) :=
  ⟨staticEqv_trans h.1 (staticEqv_markReady db n), needSubset_markReady h.2⟩

theorem invC_ite {C : Ctx} {db0 d1 d2 : Database} {c : Prop} [Decidable c]
    (h1 : InvC C db0 d1) (h2 : InvC C db0 d2) :
    InvC C db0 (if c then d1 else d2) := by
  split <;> assumption

theorem invC_collectRevertTableIds {C : Ctx} {db0 : Database}
    (hI : sourceIntegrity C db0 = true) {revT : DBTable} {fkCol : DBColumn}
    {tname : String} (hT : SchemaTableOf db0 revT) (hc : fkCol ∈ revT.columns)
    (hcu : fkCol.constraintTable = some tname) {db : Database}
    (h : InvC C db0 db) :
    InvC C db0 (collectRevertTableIds C revT fkCol tname db) := by
  simp only [collectRevertTableIds]
  refine invC_ite h (invC_addPks h (Or.inr ?_))
  unfold revertFetch
  exact fk_fetch_subset hI hT hc hcu _ _

theorem invC_collectImportingRevertTablesData {C : Ctx} {db0 : Database}
    (hI : sourceIntegrity C db0 = true) (revName tname : String) (twk : Bool)
    {db : Database} (h : InvC C db0 db) :
    InvC C db0 (collectImportingRevertTablesData C revName tname twk db) := by
  simp only [collectImportingRevertTablesData]
  cases hrt : db.table? revName with
  | none => exact h
  | some revT =>
      dsimp only
      have hT : SchemaTableOf db0 revT :=
        schemaTableOf_staticEqv h.1.symm
          (schemaTableOf_of_mem (mem_of_table? hrt))
      split
      · exact h
      · split
        · exact h
        · refine foldl_preserve (P := InvC C db0) _ _ ?_ db h
          intro d col hcol hd
          have hc : col ∈ revT.columns := List.mem_of_mem_filter hcol
          have hcu : col.constraintTable = some tname := by
            have := List.of_mem_filter hcol
            simpa using this
          exact invC_collectRevertTableIds hI hT hc hcu hd

theorem invC_phase2bRevertFold {C : Ctx} {db0 : Database}
    (hI : sourceIntegrity C db0 = true) (tname : String) (twk : Bool)
    (revNames : List String) {db : Database} (h : InvC C db0 db) :
    InvC C db0 (phase2bRevertFold C tname twk revNames db) := by
  simp only [phase2bRevertFold]
  refine foldl_preserve (P := InvC C db0) _ _ ?_ db h
  intro d rn _ hd
  exact invC_collectImportingRevertTablesData hI rn tname twk hd

theorem invC_foreignStep {C : Ctx} {db0 : Database}
    (hI : sourceIntegrity C db0 = true)
    {recurse : DBTable → List Nat → List String → Nat → Database → Database}
    (hrec : ∀ t2 ch st dp db2, SchemaTableOf db0 t2 → InvC C db0 db2 →
      InvC C db0 (recurse t2 ch st dp db2))
    {t : DBTable} (hT : SchemaTableOf db0 t) {col : DBColumn}
    (hc : col ∈ t.columns) (needPks : List Nat) (stack : List String)
    (deep : Nat) {db : Database} (h : InvC C db0 db) :
    InvC C db0 (foreignStep C recurse t col needPks stack deep db) := by
  simp only [foreignStep]
  cases hcol : col.constraintTable with
  | none => exact h
  | some fname =>
      dsimp only
      cases hft : db.table? fname with
      | none => exact h
      | some ft =>
          dsimp only
          have hTf : SchemaTableOf db0 ft :=
            schemaTableOf_staticEqv h.1.symm
              (schemaTableOf_of_mem (mem_of_table? hft))
          refine invC_ite h (invC_ite h ?_)
          have hadd : InvC C db0 (db.addPks fname
              ((if t.withKey then getTableColumnValues C t col [] []
                else getTableColumnValues C t col
                  (if t.isFullTransferred then [] else needPks) []) \
                ft.needTransferPks)) := by
            refine invC_addPks h (Or.inr ?_)
            refine Finset.Subset.trans (Finset.sdiff_subset) ?_
            split
            · exact fk_fetch_subset hI hT hc hcol _ _
            · exact fk_fetch_subset hI hT hc hcol _ _
          refine foldl_preserve (P := InvC C db0) _ _ ?_ _ hadd
          intro d ch _ hd
          exact hrec ft ch stack _ d hTf hd

theorem invC_recursivelyPreparingTable {C : Ctx} {db0 : Database}
    (hI : sourceIntegrity C db0 = true) :
    ∀ (fuel : Nat) (t : DBTable) (pks : List Nat) (stack : List String)
      (deep : Nat) (db : Database), SchemaTableOf db0 t → InvC C db0 db →
      InvC C db0 (recursivelyPreparingTable C fuel t pks stack deep db) := by
  intro fuel
  induction fuel with
  | zero =>
      intro t pks stack deep db hT h
      simp only [recursivelyPreparingTable]
      exact h
  | succ f ih =>
      intro t pks stack deep db hT h
      simp only [recursivelyPreparingTable]
      split
      · exact h
      · refine foldl_preserve (P := InvC C db0) _ _ ?_ db h
        intro d col hcol hd
        have hc : col ∈ t.columns := List.mem_of_mem_filter hcol
        exact invC_foreignStep hI
          (fun t2 ch st dp db2 hT2 h2 => ih t2 ch st dp db2 hT2 h2)
          hT hc pks (stack ++ [t.name]) deep hd
theorem invC_prepareTablesWithKeyColumn {C : Ctx} {db0 : Database}
    (hI : sourceIntegrity C db0 = true) {t : DBTable}
    (hT : SchemaTableOf db0 t) {db : Database} (h : InvC C db0 db) :
    InvC C db0 (prepareTablesWithKeyColumn C t db) := by
  simp only [prepareTablesWithKeyColumn]
  refine invC_markReady (invC_ite h ?_)
  have hadd : InvC C db0
      (db.addPks t.name (getTableColumnValues C t t.primaryKey [] [])) :=
    invC_addPks h (Or.inr (pk_fetch_subset C t [] []))
  refine foldl_preserve (P := InvC C db0) _ _ ?_ _ hadd
  intro d ch _ hd
  exact invC_recursivelyPreparingTable hI 2 t ch [] 1 d hT hd

theorem invC_collectImportingFkTablesRecordsIds {C : Ctx} {db0 : Database}
    (hI : sourceIntegrity C db0 = true) (tname : String) {db : Database}
    (h : InvC C db0 db) :
    InvC C db0 (collectImportingFkTablesRecordsIds C tname db) := by
  simp only [collectImportingFkTablesRecordsIds]
  cases hrt : db.table? tname with
  | none => exact h
  | some t =>
      dsimp only
      have hname : t.name = tname := name_of_table? hrt
      have hpk : getTableColumnValues C t t.primaryKey []
          (phase2bWhereConds db t).1 ⊆ C.src.pksOf tname := by
        rw [← hname]
        exact pk_fetch_subset C t _ _
      have hpk2 : getTableColumnValues C t t.primaryKey [] []
          ⊆ C.src.pksOf tname := by
        rw [← hname]
        exact pk_fetch_subset C t _ _
      refine invC_ite h (invC_ite h ?_)
      have hrev : InvC C db0 (phase2bRevertFold C tname t.withKey
          t.revertFkTables (db.addPks tname (getTableColumnValues C t
            t.primaryKey [] (phase2bWhereConds db t).1))) :=
        invC_phase2bRevertFold hI tname t.withKey t.revertFkTables
          (invC_addPks h (Or.inr hpk))
      exact invC_ite
        (invC_markReady (invC_addPks hrev (Or.inr hpk2)))
        (invC_markReady hrev)

theorem invC_prepareCommonTables {C : Ctx} {db0 : Database}
    (hI : sourceIntegrity C db0 = true) {db : Database} (h : InvC C db0 db) :
    InvC C db0 (prepareCommonTables C db) := by
  simp only [prepareCommonTables]
  have h2a : InvC C db0 ((db.tablesWithKeyColumn).foldl
      (fun acc t => prepareTablesWithKeyColumn C t acc) db) := by
    refine foldl_preserve (P := InvC C db0) _ _ ?_ db h
    intro d t ht hd
    have hT : SchemaTableOf db0 t :=
      schemaTableOf_staticEqv h.1.symm
        (schemaTableOf_of_mem (List.mem_of_mem_filter ht))
    exact invC_prepareTablesWithKeyColumn hI hT hd
  refine foldl_preserve (P := InvC C db0) _ _ ?_ _ h2a
  intro d n _ hd
  refine invC_ite hd ?_
  exact invC_collectImportingFkTablesRecordsIds hI n hd

theorem invC_prepareContentTypeGenericData {C : Ctx} {db0 : Database}
    (catalog : List (String × Nat)) (target : DBTable) (relTableName : String)
    {db : Database} (h : InvC C db0 db) :
    InvC C db0 (prepareContentTypeGenericData C catalog target relTableName db) := by
  simp only [prepareContentTypeGenericData]
  split
  · exact h
  · cases db.table? relTableName with
    | none => exact h
    | some relTable =>
        dsimp only
        cases target.columns.find? (fun c => c.name = "object_id") with
        | none => exact h
        | some objectIdColumn =>
            dsimp only
            split
            · exact h
            · exact invC_addPks h (Or.inr (pk_fetch_subset C target _ _))

theorem invC_prepareGenericTableData {C : Ctx} {db0 : Database}
    (catalog : List (String × Nat)) (gname : String) {db : Database}
    (h : InvC C db0 db) :
    InvC C db0 (prepareGenericTableData C catalog gname db) := by
  simp only [prepareGenericTableData]
  cases db.table? gname with
  | none => exact h
  | some target =>
      dsimp only
      refine foldl_preserve (P := InvC C db0) _ _ ?_ db h
      intro d relName _ hd
      exact invC_prepareContentTypeGenericData catalog target relName hd

theorem invC_collectGenericTablesRecordsIds {C : Ctx} {db0 : Database}
    {db : Database} (h : InvC C db0 db) :
    InvC C db0 (collectGenericTablesRecordsIds C db) := by
  simp only [collectGenericTablesRecordsIds]
  refine foldl_preserve (P := InvC C db0) _ _ ?_ db h
  intro d gname _ hd
  exact invC_prepareGenericTableData (contentTypeTable C) gname hd

theorem invC_collectKeyTableValues {C : Ctx} {db0 : Database} {db : Database}
    (h : InvC C db0 db) : InvC C db0 (collectKeyTableValues C db) := by
  simp only [collectKeyTableValues]
  exact invC_markReady (invC_addPks h (Or.inl rfl))

/-- C5, counterexample.  The key table selection is the caller seed
verbatim: on the seed fixture the seed value 5 is not a primary key of the
source key table, yet it ends up in need_transfer_pks of the key table after
collect() (no database probe filters it, collectors.py lines 121-130), so
the subset invariant fails for the key table. -/
theorem c5_counterexample :
    5 ∈ (collect exSeedCtx exSeedDb).needOf "O" ∧
      5 ∉ exSeedCtx.src.pksOf "O" ∧
      exSeedCtx.settings.keyTableName = "O" := by
  refine ⟨by decide, by decide, by decide⟩

/-- C5, amended.  For every table other than the key table the claim holds:
under referential integrity of the source (every non-NULL value stored under
a constraint column refers to an existing primary key of the referenced
source table) and starting from selections that satisfy the subset property,
every selection produced by collect() stays inside the primary keys actually
present in the corresponding source table.  The key table must be excluded:
its selection is the raw caller seed, which no database probe validates. -/
theorem c5_need_subset (C : Ctx) (db : Database)
    (hI : sourceIntegrity C db = true) (hN : needSubset C db) :
    needSubset C (collect C db) := by
  have h0 : InvC C db db := ⟨staticEqv_refl db, hN⟩
  have hres : InvC C db (collect C db) := by
    simp only [collect]
    exact invC_collectGenericTablesRecordsIds
      (invC_prepareCommonTables hI (invC_collectKeyTableValues h0))
  exact hres.2

/-- C5, witness on the exA fixture: its source satisfies referential
integrity and all selections start empty, so after collect() every table
other than the key table selects only primary keys present in its source
table. -/
theorem c5_need_subset_witness :
    sourceIntegrity exACtx exADb = true ∧
      needSubset exACtx exADb ∧
      needSubset exACtx (collect exACtx exADb) :=
  ⟨by decide, by decide, c5_need_subset exACtx exADb (by decide) (by decide)⟩
theorem topoGo_perm (edges : List (String × String)) :
    ∀ (fuel : Nat) (rem acc : List String),
      ((topoGo edges fuel rem acc).sorted ++ (topoGo edges fuel rem acc).cyclic).Perm
        (acc ++ rem) := by
  intro fuel
  induction fuel with
  | zero => intro rem acc; exact List.Perm.refl _
  | succ f ih =>
      intro rem acc
      simp only [topoGo]
      split
      · exact List.Perm.refl _
      · refine (ih _ _).trans ?_
        rw [List.append_assoc]
        refine List.Perm.append_left acc ?_
        have hfc : rem.filter (fun n =>
            n ∉ rem.filter (fun n2 => (edgeParents edges n2).all (· ∈ acc))) =
            rem.filter (fun n =>
              !((edgeParents edges n).all (· ∈ acc))) := by
          apply List.filter_congr
          intro n hn
          by_cases hp : (edgeParents edges n).all (· ∈ acc) = true
          · simp [List.mem_filter, hn, hp]
          · simp [List.mem_filter, hp]
        rw [hfc]
        exact List.filter_append_perm _ rem

theorem topologicalSort_perm (edges : List (String × String)) :
    ((topologicalSort edges).sorted ++ (topologicalSort edges).cyclic).Perm
      ((edges.flatMap (fun e => [e.1, e.2])).dedup) := by
  unfold topologicalSort
  exact topoGo_perm edges _ _ []

theorem topologicalSort_nodup (edges : List (String × String)) :
    ((topologicalSort edges).sorted ++ (topologicalSort edges).cyclic).Nodup :=
  (List.Perm.nodup_iff (topologicalSort_perm edges)).mpr
    (List.nodup_dedup _)

theorem topologicalSort_mem (edges : List (String × String)) (n : String) :
    (n ∈ (topologicalSort edges).sorted ∨ n ∈ (topologicalSort edges).cyclic) ↔
      n ∈ edges.flatMap (fun e => [e.1, e.2]) := by
  rw [← List.mem_append]
  rw [(topologicalSort_perm edges).mem_iff]
  exact List.mem_dedup

/-- C6.  Phase 2b processing order: both sorter outputs are reversed and
concatenated with the cyclic part first; every non-generic table not
mentioned in the edge list is prepended (in schema order); the resulting
list covers every non-generic table exactly once (membership in the
reversed-concatenated part coincides with being mentioned in the edge
list); and the phase walks this order strictly sequentially, applying the
per-table step only to tables not yet ready. -/
theorem c6_processing_order (C : Ctx) (db : Database)
    (hnd : (db.tables.map (fun t => t.name)).Nodup) :
    (phase2bOrder db C.settings =
      (((db.tablesWithoutGenerics C.settings).map (fun t => t.name)).filter
        (fun n => n ∉
          (topologicalSort (phase2bEdges db C.settings)).cyclic.reverse ++
          (topologicalSort (phase2bEdges db C.settings)).sorted.reverse)) ++
      ((topologicalSort (phase2bEdges db C.settings)).cyclic.reverse ++
        (topologicalSort (phase2bEdges db C.settings)).sorted.reverse)) ∧
    (∀ n, n ∈
        (topologicalSort (phase2bEdges db C.settings)).cyclic.reverse ++
          (topologicalSort (phase2bEdges db C.settings)).sorted.reverse ↔
      n ∈ (phase2bEdges db C.settings).flatMap (fun e => [e.1, e.2])) ∧
    (phase2bOrder db C.settings).Nodup ∧
    (∀ t ∈ db.tablesWithoutGenerics C.settings,
      t.name ∈ phase2bOrder db C.settings) ∧
    (prepareCommonTables C db =
      (phase2bOrder
        ((db.tablesWithKeyColumn).foldl
          (fun acc t => prepareTablesWithKeyColumn C t acc) db)
        C.settings).foldl
        (fun acc n =>
          if acc.readyOf n then acc
          else collectImportingFkTablesRecordsIds C n acc)
        ((db.tablesWithKeyColumn).foldl
          (fun acc t => prepareTablesWithKeyColumn C t acc) db)) := by
  have hmemPart : ∀ n, n ∈
      (topologicalSort (phase2bEdges db C.settings)).cyclic.reverse ++
        (topologicalSort (phase2bEdges db C.settings)).sorted.reverse ↔
      n ∈ (phase2bEdges db C.settings).flatMap (fun e => [e.1, e.2]) := by
    intro n
    rw [← topologicalSort_mem (phase2bEdges db C.settings) n]
    simp [List.mem_append, List.mem_reverse]
    tauto
  refine ⟨rfl, hmemPart, ?_, ?_, rfl⟩
  · /- Nodup of the whole order -/
    have hpartNodup :
        ((topologicalSort (phase2bEdges db C.settings)).cyclic.reverse ++
          (topologicalSort (phase2bEdges db C.settings)).sorted.reverse).Nodup := by
      have hperm :
          ((topologicalSort (phase2bEdges db C.settings)).cyclic.reverse ++
            (topologicalSort (phase2bEdges db C.settings)).sorted.reverse).Perm
          ((topologicalSort (phase2bEdges db C.settings)).sorted ++
            (topologicalSort (phase2bEdges db C.settings)).cyclic) := by
        refine List.Perm.trans (List.perm_append_comm) ?_
        exact List.Perm.append
          ((topologicalSort (phase2bEdges db C.settings)).sorted.reverse_perm)
          ((topologicalSort (phase2bEdges db C.settings)).cyclic.reverse_perm)
      exact (List.Perm.nodup_iff hperm).mpr
        (topologicalSort_nodup (phase2bEdges db C.settings))
    have hngNodup :
        ((db.tablesWithoutGenerics C.settings).map (fun t => t.name)).Nodup := by
      have hsub : ((db.tablesWithoutGenerics C.settings).map
          (fun t => t.name)).Sublist (db.tables.map (fun t => t.name)) :=
        List.Sublist.map _ (List.filter_sublist _)
      exact List.Nodup.sublist hsub hnd
    unfold phase2bOrder
    rw [List.nodup_append]
    refine ⟨List.Nodup.filter _ hngNodup, hpartNodup, ?_⟩
    intro n hn
    have := List.of_mem_filter hn
    simpa using this
  · intro t ht
    unfold phase2bOrder
    rw [List.mem_append]
    by_cases hp : t.name ∈
        (topologicalSort (phase2bEdges db C.settings)).cyclic.reverse ++
          (topologicalSort (phase2bEdges db C.settings)).sorted.reverse
    · right
      simpa using hp
    · left
      rw [List.mem_filter]
      refine ⟨List.mem_map_of_mem _ ht, ?_⟩
      simpa using hp

/-- C6, witness on the exA fixture. -/
theorem c6_processing_order_witness :
    (phase2bOrder exADb exACtx.settings).Nodup ∧
      (∀ t ∈ exADb.tablesWithoutGenerics exACtx.settings,
        t.name ∈ phase2bOrder exADb exACtx.settings) :=
  ⟨(c6_processing_order exACtx exADb (by decide)).2.2.1,
   (c6_processing_order exACtx exADb (by decide)).2.2.2.1⟩
theorem recTable_depth_zero (C : Ctx) (fuel : Nat) (t : DBTable)
    (pks : List Nat) (stack : List String) (db : Database) :
    recursivelyPreparingTable C fuel t pks stack 0 db = db := by
  cases fuel with
  | zero => rfl
  | succ f => simp [recursivelyPreparingTable]

theorem foldl_id {α : Type} (step : Database → α → Database) (l : List α)
    (h : ∀ db a, a ∈ l → step db a = db) (db : Database) :
    l.foldl step db = db := by
  induction l generalizing db with
  | nil => rfl
  | cons a l ih =>
      rw [List.foldl_cons, h db a (by simp)]
      exact ih (fun d b hb => h d b (by simp [hb])) db

theorem foreignStep_depth1 (C : Ctx) (f : Nat) (t : DBTable) (col : DBColumn)
    (needPks : List Nat) (stack : List String) (db : Database)
    (htk : t.withKey = true) :
    foreignStep C (recursivelyPreparingTable C f) t col needPks stack 1 db =
      phase2aColStep C t col stack db := by
  simp only [foreignStep, phase2aColStep]
  cases col.constraintTable with
  | none => rfl
  | some fname =>
      dsimp only
      cases db.table? fname with
      | none => rfl
      | some ft =>
          dsimp only
          rw [if_pos htk]
          split
          · rfl
          · rename_i hguard
            have hwk : ft.withKey = false := by
              have hfalse : (decide (fname ∈ stack) || ft.withKey) = false :=
                Bool.not_eq_true _ ▸ Bool.eq_false_iff.mpr hguard
              simpa using (Bool.or_eq_false_iff.mp hfalse).2
            split
            · rfl
            · apply foldl_id
              intro d ch _
              have h0 : (if !ft.withKey then 1 - 1 else 1) = 0 := by
                simp [hwk]
              rw [h0]
              exact recTable_depth_zero C f ft ch stack d
theorem recTable_depth1_withKey (C : Ctx) (f : Nat) (t : DBTable)
    (pks : List Nat) (stack : List String) (db : Database)
    (htk : t.withKey = true) :
    recursivelyPreparingTable C (f + 1) t pks stack 1 db =
      t.notSelfFkColumns.foldl
        (fun acc col => phase2aColStep C t col (stack ++ [t.name]) acc) db := by
  simp only [recursivelyPreparingTable]
  rw [if_neg (by simp)]
  apply List.foldl_ext
  intro acc col _
  exact foreignStep_depth1 C f t col pks (stack ++ [t.name]) acc htk

theorem evolves_phase2aColStep (C : Ctx) (t : DBTable) (col : DBColumn)
    (stack : List String) (db : Database) :
    Evolves db (phase2aColStep C t col stack db) := by
  simp only [phase2aColStep]
  cases col.constraintTable with
  | none => exact evolves_refl db
  | some fname =>
      dsimp only
      cases db.table? fname with
      | none => exact evolves_refl db
      | some ft =>
          dsimp only
          exact evolves_ite (evolves_refl db)
            (evolves_ite (evolves_refl db) (evolves_addPks db fname _))

theorem needOf_eq_of_table? {db : Database} {n : String} {t : DBTable}
    (h : db.table? n = some t) : db.needOf n = t.needTransferPks := by
  unfold Database.needOf
  rw [h]

theorem mem_pkList (s : Finset Nat) (a : Nat) : a ∈ pkList s ↔ a ∈ s := by
  rcases s with ⟨m, hm⟩
  induction m using Quot.ind with
  | _ l =>
      show a ∈ l.insertionSort (· ≤ ·) ↔ _
      rw [(List.perm_insertionSort _ l).mem_iff]
      rfl

theorem pkList_ne_nil {s : Finset Nat} (h : s ≠ ∅) : pkList s ≠ [] := by
  obtain ⟨a, ha⟩ := Finset.nonempty_iff_ne_empty.mpr h
  exact List.ne_nil_of_mem ((mem_pkList s a).mpr ha)

theorem makeChunks_ne_nil (k : Nat) {l : List Nat} (h : l ≠ []) :
    makeChunks k l ≠ [] := by
  cases l with
  | nil => exact absurd rfl h
  | cons x xs => simp [makeChunks, makeChunksAux]

theorem phase2aColFold_covers (C : Ctx) (t : DBTable) (stack : List String)
    (cols : List DBColumn) :
    ∀ (db : Database) (col : DBColumn), col ∈ cols →
      ∀ fname, col.constraintTable = some fname → fname ∉ stack →
      ∀ ft, (cols.foldl
          (fun acc c => phase2aColStep C t c stack acc) db).table? fname =
            some ft →
      ft.withKey = false →
      getTableColumnValues C t col [] [] ⊆ ft.needTransferPks := by
  intro db col hcol fname hcf hstk ft hft hwk
  obtain ⟨l1, l2, hsplit⟩ := List.append_of_mem hcol
  rw [hsplit, List.foldl_append, List.foldl_cons] at hft
  set db1 := l1.foldl (fun acc c => phase2aColStep C t c stack acc) db with hdb1
  have hev2 : Evolves (phase2aColStep C t col stack db1)
      (l2.foldl (fun acc c => phase2aColStep C t c stack acc)
        (phase2aColStep C t col stack db1)) :=
    evolves_foldl _ _ (fun d c _ => evolves_phase2aColStep C t c stack d) _
  /- static relation between the final lookup and the lookup at db1 -/
  have hstat : ((phase2aColStep C t col stack db1).table? fname).map
      DBTable.staticPart = (some ft).map DBTable.staticPart := by
    rw [table?_staticPart hev2.1 fname, hft]
  cases hft1 : (phase2aColStep C t col stack db1).table? fname with
  | none => rw [hft1] at hstat; simp at hstat
  | some ftm =>
      /- the step at col already covers the fetch -/
      have hcover : getTableColumnValues C t col [] [] ⊆
          (phase2aColStep C t col stack db1).needOf fname := by
        simp only [phase2aColStep, hcf]
        cases hft0 : db1.table? fname with
        | none =>
            /- then the step is the identity and the final lookup is none,
               contradicting hft -/
            dsimp only
            exfalso
            have : (phase2aColStep C t col stack db1).table? fname = none := by
              simp only [phase2aColStep, hcf, hft0]
            rw [this] at hft1
            exact Option.noConfusion hft1
        | some ft0 =>
            dsimp only
            have hwk0 : ft0.withKey = false := by
              have hs2 : ((phase2aColStep C t col stack db1).table? fname).map
                  DBTable.staticPart = (db1.table? fname).map
                    DBTable.staticPart := by
                rw [table?_staticPart
                  (evolves_phase2aColStep C t col stack db1).1 fname]
              rw [hft1, hft0] at hs2
              have hsp : ftm.staticPart = ft0.staticPart :=
                Option.some.inj hs2
              have hsp2 : ftm.staticPart = ft.staticPart := by
                rw [hft1] at hstat
                exact Option.some.inj hstat
              have hk : ft0.keyColumn = ft.keyColumn := by
                have h1 : ft0.staticPart.keyColumn = ft.staticPart.keyColumn := by
                  rw [← hsp, hsp2]
                exact h1
              unfold DBTable.withKey at hwk ⊢
              rw [hk]
              exact hwk
            rw [if_neg (by simp [hstk, hwk0])]
            by_cases hdiff : getTableColumnValues C t col [] [] \
                ft0.needTransferPks = ∅
            · rw [if_pos hdiff]
              have hsub := Finset.sdiff_eq_empty_iff_subset.mp hdiff
              rw [needOf_eq_of_table? hft0]
              exact hsub
            · rw [if_neg hdiff]
              rw [needOf_addPks_self hft0, needOf_eq_of_table? hft0]
              intro v hv
              by_cases hvm : v ∈ ft0.needTransferPks
              · exact Finset.mem_union_left _ hvm
              · exact Finset.mem_union_right _
                  (Finset.mem_sdiff.mpr ⟨hv, hvm⟩)
      have hfinal := hcover.trans (hev2.2.1 fname)
      rw [needOf_eq_of_table? hft] at hfinal
      exact hfinal
theorem foldl_fixed {A : Type} (step : Database → A → Database) (l : List A)
    (db : Database) (h : ∀ a ∈ l, step db a = db) : l.foldl step db = db := by
  induction l with
  | nil => rfl
  | cons a l ih =>
      rw [List.foldl_cons, h a (by simp)]
      exact ih (fun b hb => h b (by simp [hb]))

theorem phase2aColStep_id_of_covered (C : Ctx) (t : DBTable)
    (stack : List String) (col : DBColumn) (db : Database)
    (hcov : ∀ fname, col.constraintTable = some fname → fname ∉ stack →
      ∀ ft, db.table? fname = some ft → ft.withKey = false →
      getTableColumnValues C t col [] [] ⊆ ft.needTransferPks) :
    phase2aColStep C t col stack db = db := by
  simp only [phase2aColStep]
  split
  · rfl
  · rename_i fname hcf
    split
    · rfl
    · rename_i ft hft
      by_cases hguard : (fname ∈ stack ∨ ft.withKey = true)
      · rw [if_pos (by simpa using hguard)]
      · have hstk : fname ∉ stack := fun hm => hguard (Or.inl hm)
        have hwk : ft.withKey = false := by
          cases hw : ft.withKey
          · rfl
          · exact absurd (Or.inr hw) hguard
        rw [if_neg (by simp [hstk, hwk])]
        rw [if_pos (Finset.sdiff_eq_empty_iff_subset.mpr
          (hcov fname hcf hstk ft hft hwk))]

theorem phase2aColFold_idem (C : Ctx) (t : DBTable) (stack : List String)
    (cols : List DBColumn) (db : Database) :
    cols.foldl (fun acc c => phase2aColStep C t c stack acc)
      (cols.foldl (fun acc c => phase2aColStep C t c stack acc) db) =
    cols.foldl (fun acc c => phase2aColStep C t c stack acc) db := by
  apply foldl_fixed
  intro c hc
  apply phase2aColStep_id_of_covered
  intro fname hcf hstk ft hft hwk
  exact phase2aColFold_covers C t stack cols db c hc fname hcf hstk ft hft hwk

theorem foldl_idem_collapse {A : Type} (g : Database → Database)
    (hg : ∀ d, g (g d) = g d) :
    ∀ (l : List A) (db : Database), l ≠ [] →
      l.foldl (fun acc _ => g acc) db = g db := by
  intro l
  induction l with
  | nil => intro db h; exact absurd rfl h
  | cons a l ih =>
      intro db _
      rw [List.foldl_cons]
      cases l with
      | nil => rfl
      | cons b l2 =>
          rw [ih (g db) (by simp)]
          exact hg db

theorem prepareTablesWithKeyColumn_canon (C : Ctx) (c : Nat) (t : DBTable)
    (db : Database) (htk : t.withKey = true) :
    prepareTablesWithKeyColumn {C with chunkSize := c} t db =
      (if getTableColumnValues C t t.primaryKey [] [] = ∅ then db
       else t.notSelfFkColumns.foldl
         (fun acc col => phase2aColStep C t col ([] ++ [t.name]) acc)
         (db.addPks t.name
           (getTableColumnValues C t t.primaryKey [] []))).markReady t.name := by
  simp only [prepareTablesWithKeyColumn]
  rw [show getTableColumnValues {C with chunkSize := c} t t.primaryKey [] [] =
      getTableColumnValues C t t.primaryKey [] [] from rfl]
  congr 1
  by_cases hp : getTableColumnValues C t t.primaryKey [] [] = ∅
  · rw [if_pos hp, if_pos hp]
  · rw [if_neg hp, if_neg hp]
    have hne : makeChunks ({C with chunkSize := c} : Ctx).chunkSize
        (pkList (getTableColumnValues C t t.primaryKey [] [])) ≠ [] :=
      makeChunks_ne_nil _ (pkList_ne_nil hp)
    have hstep : ∀ (acc : Database) (ch : List Nat),
        ch ∈ makeChunks ({C with chunkSize := c} : Ctx).chunkSize
          (pkList (getTableColumnValues C t t.primaryKey [] [])) →
        recursivelyPreparingTable {C with chunkSize := c} 2 t ch [] 1 acc =
          t.notSelfFkColumns.foldl
            (fun acc2 col => phase2aColStep C t col ([] ++ [t.name]) acc2)
            acc := by
      intro acc ch _
      rw [show (2 : Nat) = 1 + 1 from rfl]
      rw [recTable_depth1_withKey {C with chunkSize := c} 1 t ch [] acc htk]
      rfl
    rw [List.foldl_ext _ _ _ hstep]
    exact foldl_idem_collapse _
      (fun d => phase2aColFold_idem C t ([] ++ [t.name]) t.notSelfFkColumns d)
      _ _ hne

/-- C9.  Chunking invariance: for every schema, source contents, seed set
and catalogs, the result of collect() is the same for any two positive chunk
sizes.  The chunk size is only used in phase 2a, where the recursion from a
key-anchored table fetches without a primary-key restriction and bottoms out
at depth zero, so every chunk performs the same idempotent update; phases 1,
2b and 3 never consult it (the partitioning of large IN lists into several
statements happens inside the SQL repository and is invisible to the
collected sets). -/
theorem c9_chunk_size_invariance (C : Ctx) (db : Database) (c1 c2 : Nat)
    (h1 : 0 < c1) (h2 : 0 < c2) :
    collect {C with chunkSize := c1} db = collect {C with chunkSize := c2} db := by
  have hcommon : prepareCommonTables {C with chunkSize := c1}
      (collectKeyTableValues C db) =
    prepareCommonTables {C with chunkSize := c2}
      (collectKeyTableValues C db) := by
    simp only [prepareCommonTables]
    have h2a : ((collectKeyTableValues C db).tablesWithKeyColumn).foldl
        (fun acc t => prepareTablesWithKeyColumn {C with chunkSize := c1} t acc)
        (collectKeyTableValues C db) =
      ((collectKeyTableValues C db).tablesWithKeyColumn).foldl
        (fun acc t => prepareTablesWithKeyColumn {C with chunkSize := c2} t acc)
        (collectKeyTableValues C db) := by
      apply List.foldl_ext
      intro acc t ht
      have htk : t.withKey = true := by
        have := List.of_mem_filter ht
        simpa using this
      rw [prepareTablesWithKeyColumn_canon C c1 t acc htk,
        prepareTablesWithKeyColumn_canon C c2 t acc htk]
    rw [h2a]
    rw [show ({C with chunkSize := c1} : Ctx).settings = C.settings from rfl,
      show ({C with chunkSize := c2} : Ctx).settings = C.settings from rfl,
      show collectImportingFkTablesRecordsIds {C with chunkSize := c1} =
        collectImportingFkTablesRecordsIds C from rfl,
      show collectImportingFkTablesRecordsIds {C with chunkSize := c2} =
        collectImportingFkTablesRecordsIds C from rfl]
  show collectGenericTablesRecordsIds {C with chunkSize := c1}
      (prepareCommonTables {C with chunkSize := c1}
        (collectKeyTableValues {C with chunkSize := c1} db)) =
    collectGenericTablesRecordsIds {C with chunkSize := c2}
      (prepareCommonTables {C with chunkSize := c2}
        (collectKeyTableValues {C with chunkSize := c2} db))
  rw [show collectKeyTableValues {C with chunkSize := c1} =
      collectKeyTableValues C from rfl,
    show collectKeyTableValues {C with chunkSize := c2} =
      collectKeyTableValues C from rfl,
    show collectGenericTablesRecordsIds {C with chunkSize := c1} =
      collectGenericTablesRecordsIds C from rfl,
    show collectGenericTablesRecordsIds {C with chunkSize := c2} =
      collectGenericTablesRecordsIds C from rfl,
    hcommon]

/-- C9, witness on the exA fixture: chunk sizes 1 and 1000000 yield the same
collection result. -/
theorem c9_chunk_size_invariance_witness :
    collect {exACtx with chunkSize := 1} exADb =
      collect {exACtx with chunkSize := 1000000} exADb :=
  c9_chunk_size_invariance exACtx exADb 1 1000000 (by decide) (by decide)
end Databaser
